import Mathlib

/-!
Verification of the audit-log storage-and-indexing engine
(`src/component/lib.ts`, `src/component/aggregates.ts`, `src/component/schema.ts`).

The Convex tables and the two `TableAggregate` instances are shallowly
embedded as Lean data.  The `logs` field of `DB` is the `by_timestamp`
index of the `auditLogs` table: a list sorted ascending by `timestamp`,
ties ordered by insertion (`_creationTime`) order, exactly as a Convex
index orders documents.  Descending scans read the reversed list.
The aggregate components are lists of `(namespace, key, id)` entries;
`count` filters by namespace and key bounds, mirroring the aggregate
component's contract used by the code.
-/

namespace AuditLog

/-- The four severity levels of `vSeverity` in `schema.ts`. -/
inductive Severity where
  | info
  | warning
  | error
  | critical
deriving DecidableEq, Repr

/-- The string form of a severity, as stored in the severity aggregate
namespace (`namespace: (doc) => [doc.severity]`). -/
def sevString : Severity → String
  | .info => "info"
  | .warning => "warning"
  | .error => "error"
  | .critical => "critical"

/-- JS values reachable through `v.any()` fields (`metadata`, `before`,
`after`): null, booleans, numbers, strings, arrays and plain objects. -/
inductive Value where
  | vNull
  | vBool (b : Bool)
  | vNum (n : Int)
  | vStr (s : String)
  | vArr (xs : List Value)
  | vObj (fields : List (String × Value))

/-- JS `typeof x === "object"`: true for null, arrays and objects. -/
def typeofIsObject : Value → Bool
  | .vNull => true
  | .vArr _ => true
  | .vObj _ => true
  | _ => false

/-- JS truthiness of a value (`if (args.before)` style guards). -/
def truthy : Value → Bool
  | .vNull => false
  | .vBool b => b
  | .vNum n => n != 0
  | .vStr s => s ≠ ""
  | .vArr _ => true
  | .vObj _ => true

/-- Escape a string the way `JSON.stringify` quotes it (backslash and
double quote; control characters do not occur in the claims). -/
def jsonEscapeChar (c : Char) : String :=
  if c = '\\' then "\\\\"
  else if c = '"' then "\\\""
  else String.singleton c

def jsonQuote (s : String) : String :=
  "\"" ++ String.join (s.toList.map jsonEscapeChar) ++ "\""

mutual

/-- `JSON.stringify` of a value (compact form; the indentation argument
of `JSON.stringify(x, null, 2)` is presentational only). -/
def stringify : Value → String
  | .vNull => "null"
  | .vBool b => if b then "true" else "false"
  | .vNum n => toString n
  | .vStr s => jsonQuote s
  | .vArr xs => "[" ++ stringifyItems xs ++ "]"
  | .vObj fs => "\x7b" ++ stringifyFields fs ++ "\x7d"

def stringifyItems : List Value → String
  | [] => ""
  | [x] => stringify x
  | x :: y :: rest => stringify x ++ "," ++ stringifyItems (y :: rest)

def stringifyFields : List (String × Value) → String
  | [] => ""
  | [(k, x)] => jsonQuote k ++ ":" ++ stringify x
  | (k, x) :: y :: rest =>
      jsonQuote k ++ ":" ++ stringify x ++ "," ++ stringifyFields (y :: rest)

end

/-- JS `Object.keys`; throws a `TypeError` on `null`
(`Object.keys(null)`), which we surface as an `Except.error`. -/
def objectKeys : Value → Except String (List String)
  | .vNull => .error "TypeError: Cannot convert undefined or null to object"
  | .vObj fs => .ok (fs.map (·.1))
  | .vArr xs => .ok ((List.range xs.length).map toString)
  | .vBool _ => .ok []
  | .vNum _ => .ok []
  | .vStr _ => .ok []

/-- JS property lookup `x[key]` on a structured value (`undefined` is
`none`). Objects look up the field, arrays their decimal indices. -/
def getProp (x : Value) (key : String) : Option Value :=
  match x with
  | .vObj fs => (fs.find? (fun f => f.1 == key)).map (·.2)
  | .vArr xs =>
      match key.toNat? with
      | some i => xs.get? i
      | none => none
  | _ => none

/-- JS `key in x`. -/
def hasProp (x : Value) (key : String) : Bool :=
  (getProp x key).isSome

/-- `generateDiff` from `lib.ts`: early textual return when either side
is not `typeof "object"`; otherwise removal lines for keys only in
`before`, addition lines for keys only in `after`, and change lines for
keys whose `JSON.stringify` forms differ. -/
def generateDiff (before after : Value) : Except String String := do
  if !(typeofIsObject before) || !(typeofIsObject after) then
    return "Changed from " ++ stringify before ++ " to " ++ stringify after
  let beforeKeys ← objectKeys before
  let afterKeys ← objectKeys after
  let removed := (beforeKeys.filter (fun k => !(hasProp after k))).map
    (fun k => "- " ++ k ++ ": " ++ stringify ((getProp before k).getD .vNull))
  let addedOrChanged := afterKeys.filterMap (fun k =>
    if !(hasProp before k) then
      some ("+ " ++ k ++ ": " ++ stringify ((getProp after k).getD .vNull))
    else if stringify ((getProp before k).getD .vNull)
        ≠ stringify ((getProp after k).getD .vNull) then
      some ("~ " ++ k ++ ": " ++ stringify ((getProp before k).getD .vNull)
        ++ " → " ++ stringify ((getProp after k).getD .vNull))
    else none)
  return String.intercalate "\n" (removed ++ addedOrChanged)

/-- A stored `auditLogs` document (schema.ts).  `id` stands for the
opaque Convex `_id`, `creationTime` for `_creationTime`. -/
structure LogRecord where
  id : Nat
  creationTime : Int
  action : String
  actorId : Option String
  timestamp : Int
  resourceType : Option String
  resourceId : Option String
  metadata : Option Value
  severity : Severity
  ipAddress : Option String
  userAgent : Option String
  sessionId : Option String
  tags : Option (List String)
  before : Option Value
  after : Option Value
  diff : Option String
  retentionCategory : Option String

/-- One entry of a `TableAggregate` instance: the namespace value
(a severity string or an action string), the sort key (the record's
`timestamp`) and the document id it refers to. -/
structure AggEntry where
  ns : String
  key : Int
  ref : Nat
deriving DecidableEq, Repr

/-- `aggregateBySeverity`'s entry for a document:
`namespace = [doc.severity]`, `sortKey = doc.timestamp`. -/
def projSev (r : LogRecord) : AggEntry :=
  ⟨sevString r.severity, r.timestamp, r.id⟩

/-- `aggregateByAction`'s entry for a document:
`namespace = [doc.action]`, `sortKey = doc.timestamp`. -/
def projAct (r : LogRecord) : AggEntry :=
  ⟨r.action, r.timestamp, r.id⟩

/-- The persisted state: the `auditLogs` table (as its `by_timestamp`
index: ascending by timestamp, ties in insertion order) and the two
aggregate components.  `nextId` generates fresh document ids. -/
structure DB where
  logs : List LogRecord
  aggSeverity : List AggEntry
  aggAction : List AggEntry
  nextId : Nat

def emptyDB : DB := ⟨[], [], [], 0⟩

/-- Insert a document into the `by_timestamp` index: it sorts after
every existing document with a smaller-or-equal timestamp (equal keys
order by `_creationTime`, i.e. insertion order). -/
def insertByTs (r : LogRecord) : List LogRecord → List LogRecord
  | [] => [r]
  | x :: xs =>
      if x.timestamp ≤ r.timestamp then x :: insertByTs r xs
      else r :: x :: xs

/-- `ctx.db.insert` followed by `aggregateBySeverity.insert` and
`aggregateByAction.insert` — the shared tail of `log`, `logChange` and
each `logBulk` iteration. -/
def insertRecord (r : LogRecord) (db : DB) : DB :=
  { logs := insertByTs r db.logs
    aggSeverity := db.aggSeverity ++ [projSev r]
    aggAction := db.aggAction ++ [projAct r]
    nextId := db.nextId + 1 }

/-- `vAuditEventInput` (shared.ts): the caller-supplied fields of a
single event; `timestamp` is added by the store. -/
structure AuditEventInput where
  action : String
  actorId : Option String := none
  resourceType : Option String := none
  resourceId : Option String := none
  metadata : Option Value := none
  severity : Severity
  ipAddress : Option String := none
  userAgent : Option String := none
  sessionId : Option String := none
  tags : Option (List String) := none
  retentionCategory : Option String := none

/-- The document stored by `log` / `logBulk` for an event input:
`{ ...args, timestamp }` with the freshly assigned id. -/
def recordOfEvent (id : Nat) (now : Int) (e : AuditEventInput) : LogRecord :=
  { id := id
    creationTime := now
    action := e.action
    actorId := e.actorId
    timestamp := now
    resourceType := e.resourceType
    resourceId := e.resourceId
    metadata := e.metadata
    severity := e.severity
    ipAddress := e.ipAddress
    userAgent := e.userAgent
    sessionId := e.sessionId
    tags := e.tags
    before := none
    after := none
    diff := none
    retentionCategory := e.retentionCategory }

/-- The `log` mutation: `timestamp = Date.now()`, insert the document,
insert it into both aggregates, return the new id. -/
def logOp (now : Int) (e : AuditEventInput) (db : DB) : DB × Nat :=
  (insertRecord (recordOfEvent db.nextId now e) db, db.nextId)

/-- `vChangeEventInput` (shared.ts). -/
structure ChangeEventInput where
  action : String
  actorId : Option String := none
  resourceType : String
  resourceId : String
  before : Option Value := none
  after : Option Value := none
  generateDiff : Option Bool := none
  severity : Option Severity := none
  ipAddress : Option String := none
  userAgent : Option String := none
  sessionId : Option String := none
  tags : Option (List String) := none
  retentionCategory : Option String := none

/-- The `logChange` mutation.  The diff is generated only under the
truthiness guard `args.generateDiff && args.before && args.after`; a
thrown `TypeError` aborts the whole transaction (`Except.error`). -/
def logChangeOp (now : Int) (e : ChangeEventInput) (db : DB) :
    Except String (DB × Nat) := do
  let diff : Option String ←
    if e.generateDiff.getD false
        && (e.before.map truthy).getD false
        && (e.after.map truthy).getD false then
      match generateDiff (e.before.getD .vNull) (e.after.getD .vNull) with
      | .ok d => pure (some d)
      | .error err => throw err
    else
      pure none
  let r : LogRecord :=
    { id := db.nextId
      creationTime := now
      action := e.action
      actorId := e.actorId
      timestamp := now
      resourceType := some e.resourceType
      resourceId := some e.resourceId
      metadata := none
      severity := e.severity.getD .info
      ipAddress := e.ipAddress
      userAgent := e.userAgent
      sessionId := e.sessionId
      tags := e.tags
      before := e.before
      after := e.after
      diff := diff
      retentionCategory := e.retentionCategory }
  return (insertRecord r db, db.nextId)

/-- The `logBulk` mutation: one `Date.now()` taken before the loop,
then each event inserted (document plus both aggregates) with that
shared timestamp; ids collected in order. -/
def logBulkOp (now : Int) (events : List AuditEventInput) (db : DB) :
    DB × List Nat :=
  events.foldl
    (fun acc e =>
      let step := logOp now e acc.1
      (step.1, acc.2 ++ [step.2]))
    (db, [])

/-- The `get` query: point lookup by id, `null` when absent. -/
def getOp (db : DB) (id : Nat) : Option LogRecord :=
  db.logs.find? (fun r => r.id == id)

/-- One bound of an aggregate `count` query (`{ key, inclusive }`). -/
structure Bound where
  key : Int
  inclusive : Bool
deriving DecidableEq, Repr

/-- The optional lower/upper bounds of an aggregate `count` query. -/
structure Bounds where
  lower : Option Bound := none
  upper : Option Bound := none
deriving DecidableEq, Repr

/-- Whether a sort key lies inside the bounds. -/
def boundsContain (b : Bounds) (k : Int) : Bool :=
  (match b.lower with
   | none => true
   | some lo => if lo.inclusive then decide (lo.key ≤ k) else decide (lo.key < k))
  &&
  (match b.upper with
   | none => true
   | some hi => if hi.inclusive then decide (k ≤ hi.key) else decide (k < hi.key))

/-- `TableAggregate.count(ctx, { namespace, bounds })`: the number of
entries of the namespace whose key lies inside the bounds. -/
def aggCount (entries : List AggEntry) (ns : String) (b : Bounds) : Nat :=
  (entries.filter (fun e => e.ns == ns && boundsContain b e.key)).length

/-- `TableAggregate.delete(ctx, doc)`: remove the document's entry;
removing an entry that is not present is a no-op. -/
def aggDelete (e : AggEntry) (entries : List AggEntry) : List AggEntry :=
  entries.erase e

/-- `TableAggregate.insertIfDoesNotExist(ctx, doc)`: insert the
document's entry unless an identical entry is already present. -/
def aggInsertIfAbsent (e : AggEntry) (entries : List AggEntry) : List AggEntry :=
  if entries.contains e then entries else entries ++ [e]

/-- `vCleanupOptions` (shared.ts). -/
structure CleanupOptions where
  olderThanDays : Option Int := none
  preserveSeverity : Option (List Severity) := none
  retentionCategory : Option String := none
  batchSize : Option Nat := none

/-- JS truthiness of an optional string argument (`""` is falsy). -/
def strOptTruthy : Option String → Bool
  | some s => s ≠ ""
  | none => false

/-- The body of `cleanup`'s loop for one candidate: skip when its
severity is preserved, skip when a retention category is requested and
differs, otherwise delete from both aggregates and from the table and
count it. -/
def cleanupStep (opts : CleanupOptions) (acc : DB × Nat) (r : LogRecord) :
    DB × Nat :=
  let db := acc.1
  if (opts.preserveSeverity.getD []).contains r.severity then acc
  else if strOptTruthy opts.retentionCategory
      && r.retentionCategory != opts.retentionCategory then acc
  else
    ({ db with
        aggSeverity := aggDelete (projSev r) db.aggSeverity
        aggAction := aggDelete (projAct r) db.aggAction
        logs := db.logs.eraseP (fun x => x.id == r.id) },
     acc.2 + 1)

/-- The candidate batch of `cleanup`: the first `batchSize` documents of
the ascending `by_timestamp` index with `timestamp < cutoff`. -/
def cleanupCandidates (db : DB) (cutoff : Int) (batchSize : Nat) :
    List LogRecord :=
  (db.logs.filter (fun r => decide (r.timestamp < cutoff))).take batchSize

/-- The `cleanup` mutation: defaults `batchSize = 100`,
`olderThanDays = 90`; `cutoff = now - olderThanDays·86 400 000`; loop
over the candidate batch; return the deleted count. -/
def cleanupOp (now : Int) (opts : CleanupOptions) (db : DB) : DB × Nat :=
  let batchSize := opts.batchSize.getD 100
  let olderThanDays := opts.olderThanDays.getD 90
  let cutoff := now - olderThanDays * 24 * 60 * 60 * 1000
  (cleanupCandidates db cutoff batchSize).foldl (cleanupStep opts) (db, 0)

/-- `vQueryFilters` (shared.ts). -/
structure QueryFilters where
  severity : Option (List Severity) := none
  actions : Option (List String) := none
  resourceTypes : Option (List String) := none
  actorIds : Option (List String) := none
  fromTimestamp : Option Int := none
  toTimestamp : Option Int := none
  tags : Option (List String) := none

/-- JS truthiness of an optional numeric argument (`0` is falsy). -/
def numOptTruthy : Option Int → Bool
  | some n => n != 0
  | none => false

/-- JS `xs && xs.length > 0` for an optional array argument. -/
def listGiven {α : Type} : Option (List α) → Bool
  | some l => l.length > 0
  | none => false

/-- The in-memory filter chain of `search`, applied in the order of the
handler's `if` blocks. -/
def searchFilterChain (f : QueryFilters) (l : List LogRecord) : List LogRecord :=
  let l := if numOptTruthy f.fromTimestamp then
    l.filter (fun r => decide (f.fromTimestamp.getD 0 ≤ r.timestamp)) else l
  let l := if numOptTruthy f.toTimestamp then
    l.filter (fun r => decide (r.timestamp ≤ f.toTimestamp.getD 0)) else l
  let l := if listGiven f.severity then
    l.filter (fun r => (f.severity.getD []).contains r.severity) else l
  let l := if listGiven f.actions then
    l.filter (fun r => (f.actions.getD []).contains r.action) else l
  let l := if listGiven f.resourceTypes then
    l.filter (fun r => match r.resourceType with
      | some rt => rt ≠ "" && (f.resourceTypes.getD []).contains rt
      | none => false) else l
  let l := if listGiven f.actorIds then
    l.filter (fun r => match r.actorId with
      | some a => a ≠ "" && (f.actorIds.getD []).contains a
      | none => false) else l
  let l := if listGiven f.tags then
    l.filter (fun r => match r.tags with
      | some ts => (f.tags.getD []).any (fun tag => ts.contains tag)
      | none => false) else l
  l

/-- The conjunction of all `search` filter predicates on one record. -/
def matchesFilters (f : QueryFilters) (r : LogRecord) : Bool :=
  (!(numOptTruthy f.fromTimestamp) || decide (f.fromTimestamp.getD 0 ≤ r.timestamp))
  && (!(numOptTruthy f.toTimestamp) || decide (r.timestamp ≤ f.toTimestamp.getD 0))
  && (!(listGiven f.severity) || (f.severity.getD []).contains r.severity)
  && (!(listGiven f.actions) || (f.actions.getD []).contains r.action)
  && (!(listGiven f.resourceTypes) || (match r.resourceType with
      | some rt => rt ≠ "" && (f.resourceTypes.getD []).contains rt
      | none => false))
  && (!(listGiven f.actorIds) || (match r.actorId with
      | some a => a ≠ "" && (f.actorIds.getD []).contains a
      | none => false))
  && (!(listGiven f.tags) || (match r.tags with
      | some ts => (f.tags.getD []).any (fun tag => ts.contains tag)
      | none => false))

/-- `vPagination` (shared.ts): an optional cursor (the id of the last
record of the previous page) and the required page size. -/
structure Pagination where
  cursor : Option Nat := none
  limit : Nat

structure SearchResult where
  items : List LogRecord
  cursor : Option Nat
  hasMore : Bool

/-- The cursor-resolution step of `search`: `findIndex` of the cursor id
in the filtered results, `+ 1`; an unknown cursor starts from 0. -/
def searchStartIndex (results : List LogRecord) (cursor : Option Nat) : Nat :=
  match cursor with
  | some c =>
      match results.findIdx? (fun r => r.id == c) with
      | some i => i + 1
      | none => 0
  | none => 0

/-- The `search` query: take the `limit * 10` most recent documents of
the descending `by_timestamp` scan, filter in memory, then page from the
cursor position. -/
def searchOp (db : DB) (f : QueryFilters) (pag : Pagination) : SearchResult :=
  let limit := pag.limit
  let window := db.logs.reverse.take (limit * 10)
  let results := searchFilterChain f window
  let startIndex := searchStartIndex results pag.cursor
  let paginated := (results.drop startIndex).take limit
  let hasMore := decide (startIndex + limit < results.length)
  { items := paginated
    cursor := match paginated.getLast? with
      | some r => some r.id
      | none => none
    hasMore := hasMore }

/-- The claim's pagination procedure: call `search`, then keep calling
it with the returned cursor while `hasMore`, concatenating the pages. -/
def searchPages (db : DB) (f : QueryFilters) (limit : Nat) :
    Nat → Option Nat → List LogRecord
  | 0, _ => []
  | fuel + 1, cur =>
      let res := searchOp db f ⟨cur, limit⟩
      res.items ++
        (if res.hasMore then searchPages db f limit fuel res.cursor else [])

/-- One `{action, threshold, windowMinutes}` pattern of
`detectAnomalies`. -/
structure AnomalyPattern where
  action : String
  threshold : Int
  windowMinutes : Int
deriving DecidableEq, Repr

structure Anomaly where
  action : String
  count : Nat
  threshold : Int
  windowMinutes : Int
  detectedAt : Int
deriving DecidableEq, Repr

/-- The bounds used by `detectAnomalies`:
`[now - windowMinutes·60 000, +∞)`, lower bound inclusive. -/
def anomalyBounds (now : Int) (p : AnomalyPattern) : Bounds :=
  { lower := some ⟨now - p.windowMinutes * 60 * 1000, true⟩ }

/-- The anomaly record pushed for a pattern that meets its threshold. -/
def mkAnomaly (db : DB) (now : Int) (p : AnomalyPattern) : Anomaly :=
  { action := p.action
    count := aggCount db.aggAction p.action (anomalyBounds now p)
    threshold := p.threshold
    windowMinutes := p.windowMinutes
    detectedAt := now }

/-- The `detectAnomalies` query: for each pattern, an aggregate count of
the action namespace over the window; push an anomaly iff
`count >= threshold`.  Only the action aggregate is consulted. -/
def detectAnomalies (db : DB) (now : Int) (patterns : List AnomalyPattern) :
    List Anomaly :=
  patterns.foldl
    (fun acc p =>
      let count := aggCount db.aggAction p.action (anomalyBounds now p)
      if p.threshold ≤ (count : Int) then acc ++ [mkAnomaly db now p]
      else acc)
    []

mutual

/-- JS `String(value)` coercion: arrays join their elements with commas
(`null` elements become empty), plain objects print as
`[object Object]`. -/
def jsToString : Value → String
  | .vNull => "null"
  | .vBool b => if b then "true" else "false"
  | .vNum n => toString n
  | .vStr s => s
  | .vArr xs => jsJoinElems xs
  | .vObj _ => "[object Object]"

def jsJoinElems : List Value → String
  | [] => ""
  | [x] => jsElemString x
  | x :: y :: rest => jsElemString x ++ "," ++ jsJoinElems (y :: rest)

def jsElemString : Value → String
  | .vNull => ""
  | x => jsToString x

end

/-- JS `field in log` / `log[field]` on a stored document: the system
fields and every schema field that is present on the record. -/
def fieldOf (r : LogRecord) : String → Option Value
  | "_id" => some (.vStr (toString r.id))
  | "_creationTime" => some (.vNum r.creationTime)
  | "action" => some (.vStr r.action)
  | "actorId" => r.actorId.map .vStr
  | "timestamp" => some (.vNum r.timestamp)
  | "resourceType" => r.resourceType.map .vStr
  | "resourceId" => r.resourceId.map .vStr
  | "metadata" => r.metadata
  | "severity" => some (.vStr (sevString r.severity))
  | "ipAddress" => r.ipAddress.map .vStr
  | "userAgent" => r.userAgent.map .vStr
  | "sessionId" => r.sessionId.map .vStr
  | "tags" => r.tags.map (fun ts => .vArr (ts.map .vStr))
  | "before" => r.before
  | "after" => r.after
  | "diff" => r.diff.map .vStr
  | "retentionCategory" => r.retentionCategory.map .vStr
  | _ => none

def MAX_REPORT_RECORDS : Nat := 10000

inductive ReportFormat where
  | json
  | csv
deriving DecidableEq, Repr

structure ReportArgs where
  startDate : Int
  endDate : Int
  format : ReportFormat
  includeFields : Option (List String) := none
  groupBy : Option String := none
  maxRecords : Option Nat := none

structure Report where
  format : ReportFormat
  data : String
  generatedAt : Int
  recordCount : Nat
  truncated : Bool

def defaultReportFields : List String :=
  ["timestamp", "action", "actorId", "resourceType", "resourceId", "severity"]

/-- The projection of one document onto the report's field list
(`if (field in log) filtered[field] = log[field]`). -/
def reportRow (includeFields : List String) (r : LogRecord) :
    List (String × Value) :=
  includeFields.filterMap (fun f => (fieldOf r f).map (fun v => (f, v)))

/-- One CSV cell: empty for `undefined`/`null`, quoted with doubled
quotes for strings, `String(value)` otherwise. -/
def csvCell : Option Value → String
  | none => ""
  | some .vNull => ""
  | some (.vStr s) => "\"" ++ s.replace "\"" "\"\"" ++ "\""
  | some v => jsToString v

def csvRow (includeFields : List String) (row : List (String × Value)) :
    String :=
  String.intercalate ","
    (includeFields.map (fun f => csvCell ((row.find? (fun p => p.1 == f)).map (·.2))))

/-- Append a row under its group key, keeping first-seen key order
(JS object insertion order). -/
def insertGroup (key : String) (row : List (String × Value))
    (groups : List (String × List (List (String × Value)))) :
    List (String × List (List (String × Value))) :=
  match groups with
  | [] => [(key, [row])]
  | (k, rows) :: rest =>
      if k == key then (k, rows ++ [row]) :: rest
      else (k, rows) :: insertGroup key row rest

/-- The group key of a row: `String(log[groupBy] ?? "unknown")`. -/
def groupKeyOf (groupBy : String) (row : List (String × Value)) : String :=
  match (row.find? (fun p => p.1 == groupBy)).map (·.2) with
  | none => "unknown"
  | some Value.vNull => "unknown"
  | some v => jsToString v

/-- The `generateReport` query.  `limit = min(maxRecords ?? 10000,
10000)`; read `limit + 1` documents of the time range to detect
truncation; project onto the field list; serialize as CSV or JSON
(optionally grouped).  Truncation is a flag, never an error. -/
def generateReport (db : DB) (now : Int) (a : ReportArgs) : Report :=
  let limit := min (a.maxRecords.getD MAX_REPORT_RECORDS) MAX_REPORT_RECORDS
  let logs := (db.logs.filter
      (fun r => decide (a.startDate ≤ r.timestamp) && decide (r.timestamp ≤ a.endDate))).take
    (limit + 1)
  let truncated := decide (logs.length > limit)
  let logsToProcess := if truncated then logs.take limit else logs
  let includeFields := a.includeFields.getD defaultReportFields
  let filteredLogs := logsToProcess.map (reportRow includeFields)
  let data :=
    match a.format with
    | .csv =>
        String.intercalate "\n"
          (String.intercalate "," includeFields
            :: filteredLogs.map (csvRow includeFields))
    | .json =>
        if strOptTruthy a.groupBy && includeFields.contains (a.groupBy.getD "") then
          let grouped := filteredLogs.foldl
            (fun gs row => insertGroup (groupKeyOf (a.groupBy.getD "") row) row gs) []
          stringify (.vObj (grouped.map (fun g => (g.1, .vArr (g.2.map .vObj)))))
        else
          stringify (.vArr (filteredLogs.map .vObj))
  { format := a.format
    data := data
    generatedAt := now
    recordCount := filteredLogs.length
    truncated := truncated }

structure BackfillResult where
  processed : Nat
  cursor : Option Nat
  isDone : Bool
deriving DecidableEq, Repr

/-- `insertIfDoesNotExist` into both aggregates for one document — the
body of the backfill loop. -/
def backfillInsert (db : DB) (r : LogRecord) : DB :=
  { db with
      aggSeverity := aggInsertIfAbsent (projSev r) db.aggSeverity
      aggAction := aggInsertIfAbsent (projAct r) db.aggAction }

/-- Stable insertion of a document into a list in ascending
`_creationTime` order: it sorts after every document with a
smaller-or-equal creation time. -/
def insertByCreation (r : LogRecord) : List LogRecord → List LogRecord
  | [] => [r]
  | x :: xs =>
      if x.creationTime ≤ r.creationTime then x :: insertByCreation r xs
      else r :: x :: xs

/-- The default scan order of a Convex table query without `withIndex`
(`ctx.db.query("auditLogs").order("asc")`): the table in ascending
`_creationTime` order.  Recovered from the `by_timestamp` list by a
stable insertion sort on creation time; in a real store the creation
times of distinct documents are distinct, so this is exactly the
document-creation order. -/
def byCreation (db : DB) : List LogRecord :=
  db.logs.foldl (fun acc r => insertByCreation r acc) []

/-- The scan a backfill call resumes.  Without a cursor — or when the
cursor id does not resolve to an audit document — it is the plain
`ctx.db.query("auditLogs").order("asc")` scan, i.e. the table in
default `_creationTime` order; with a resolved cursor it is the
`by_timestamp` index restricted to strictly greater timestamps. -/
def backfillScan (db : DB) (cursor : Option Nat) : List LogRecord :=
  match cursor with
  | some cid =>
      match db.logs.find? (fun r => r.id == cid) with
      | some cdoc => db.logs.filter (fun r => decide (cdoc.timestamp < r.timestamp))
      | none => byCreation db
  | none => byCreation db

/-- The `runBackfill` mutation (and the identical internal
`backfillAggregates`): read `batchSize + 1` documents of the resumed
scan, process the first `batchSize` with `insertIfDoesNotExist` on both
aggregates, return the progress cursor. -/
def runBackfill (db : DB) (cursor : Option Nat) (batchSizeOpt : Option Nat) :
    DB × BackfillResult :=
  let batchSize := batchSizeOpt.getD 100
  let docs := (backfillScan db cursor).take (batchSize + 1)
  let hasMore := decide (docs.length > batchSize)
  let toProcess := if hasMore then docs.take batchSize else docs
  let db' := toProcess.foldl backfillInsert db
  (db',
   { processed := toProcess.length
     cursor := match hasMore, toProcess.getLast? with
       | true, some lastDoc => some lastDoc.id
       | _, _ => none
     isDone := !hasMore })

/-- The claim's backfill procedure: start with no cursor, keep calling
`runBackfill` with each returned cursor until `isDone`. -/
def backfillLoop : DB → Option Nat → Option Nat → Nat → DB
  | db, _, _, 0 => db
  | db, bs, cur, fuel + 1 =>
      let step := runBackfill db cur bs
      if step.2.isDone then step.1
      else backfillLoop step.1 bs step.2.cursor fuel

/-- A completed write/delete transaction of the component: the claims
quantify over states reached by these from the empty store. -/
inductive AuditOp where
  | opLog (e : AuditEventInput)
  | opLogChange (e : ChangeEventInput)
  | opLogBulk (es : List AuditEventInput)
  | opCleanup (o : CleanupOptions)

/-- Apply one transaction at wall-clock time `now`; a `logChange` whose
diff generation throws leaves the store unchanged (the Convex mutation
aborts atomically). -/
def applyOp (db : DB) (t : Int × AuditOp) : DB :=
  match t.2 with
  | .opLog e => (logOp t.1 e db).1
  | .opLogChange e =>
      match logChangeOp t.1 e db with
      | .ok res => res.1
      | .error _ => db
  | .opLogBulk es => (logBulkOp t.1 es db).1
  | .opCleanup o => (cleanupOp t.1 o db).1

/-- Run a trace of transactions from the empty store. -/
def runOps (ops : List (Int × AuditOp)) : DB :=
  ops.foldl applyOp emptyDB

/-- Well-formedness of a store state: document ids are distinct and
below the id generator, each aggregate holds exactly one entry per
document (as a multiset), and the table list is in `by_timestamp`
order. -/
def WF (db : DB) : Prop :=
  (db.logs.map (·.id)).Nodup
  ∧ (∀ r ∈ db.logs, r.id < db.nextId)
  ∧ db.aggSeverity.Perm (db.logs.map projSev)
  ∧ db.aggAction.Perm (db.logs.map projAct)
  ∧ db.logs.Pairwise (fun a b => a.timestamp ≤ b.timestamp)

/-! ### Basic facts about the index insertion and deletion helpers -/

theorem insertByTs_perm (r : LogRecord) (l : List LogRecord) :
    (insertByTs r l).Perm (r :: l) := by
  induction l with
  | nil => simp [insertByTs]
  | cons x xs ih =>
      by_cases h : x.timestamp ≤ r.timestamp
      · simp only [insertByTs, if_pos h]
        exact ((ih.cons x).trans (List.Perm.swap r x xs))
      · simp [insertByTs, if_neg h]

theorem insertByTs_pairwise (r : LogRecord) (l : List LogRecord)
    (h : l.Pairwise (fun a b => a.timestamp ≤ b.timestamp)) :
    (insertByTs r l).Pairwise (fun a b => a.timestamp ≤ b.timestamp) := by
  induction l with
  | nil => simp [insertByTs]
  | cons x xs ih =>
      rcases List.pairwise_cons.mp h with ⟨hx, hxs⟩
      by_cases hc : x.timestamp ≤ r.timestamp
      · simp only [insertByTs, if_pos hc]
        refine List.pairwise_cons.mpr ⟨?_, ih hxs⟩
        intro b hb
        have hmem : b ∈ r :: xs := (insertByTs_perm r xs).subset hb
        rcases List.mem_cons.mp hmem with rfl | hb'
        · exact hc
        · exact hx _ hb'
      · simp only [insertByTs, if_neg hc]
        have hr : r.timestamp ≤ x.timestamp := le_of_lt (lt_of_not_le hc)
        refine List.pairwise_cons.mpr ⟨?_, h⟩
        intro b hb
        rcases List.mem_cons.mp hb with rfl | hb'
        · exact hr
        · exact le_trans hr (hx _ hb')

/-- Erasing by a predicate that only the element `a` satisfies restores
the list up to permutation when `a` is put back in front. -/
theorem cons_eraseP_perm {α : Type} (p : α → Bool) (a : α) :
    ∀ l : List α, a ∈ l → p a = true → (∀ b ∈ l, p b = true → b = a) →
      (a :: l.eraseP p).Perm l := by
  intro l
  induction l with
  | nil => intro h; cases h
  | cons x xs ih =>
      intro ha hpa huniq
      by_cases hx : p x = true
      · have hxa : x = a := huniq x (List.mem_cons_self x xs) hx
        subst hxa
        rw [List.eraseP_cons_of_pos hx]
      · have hax : a ≠ x := fun h => hx (h ▸ hpa)
        have ha' : a ∈ xs := by
          rcases List.mem_cons.mp ha with h | h
          · exact absurd h hax
          · exact h
        have huniq' : ∀ b ∈ xs, p b = true → b = a :=
          fun b hb => huniq b (List.mem_cons_of_mem _ hb)
        have hrec := ih ha' hpa huniq'
        have hstep : (x :: xs).eraseP p = x :: xs.eraseP p :=
          List.eraseP_cons_of_neg (by simp [hx])
        rw [hstep]
        exact (List.Perm.swap x a _).trans (hrec.cons x)

/-- Two records of a list with `Nodup` ids and the same id are equal. -/
theorem id_inj {l : List LogRecord} (h : (l.map (·.id)).Nodup)
    {a b : LogRecord} (ha : a ∈ l) (hb : b ∈ l) (hab : a.id = b.id) :
    a = b :=
  List.inj_on_of_nodup_map h ha hb hab

/-! ### The well-formedness invariant is preserved by every write -/

theorem WF_empty : WF emptyDB := by
  refine ⟨?_, ?_, ?_, ?_, ?_⟩ <;> simp [emptyDB]

theorem WF_insertRecord {db : DB} (hWF : WF db) (r : LogRecord)
    (hid : r.id = db.nextId) : WF (insertRecord r db) := by
  obtain ⟨hN, hB, hS, hA, hP⟩ := hWF
  refine ⟨?_, ?_, ?_, ?_, ?_⟩
  · have hperm : ((insertByTs r db.logs).map (·.id)).Perm
        (r.id :: db.logs.map (·.id)) := (insertByTs_perm r db.logs).map _
    refine hperm.nodup_iff.mpr (List.nodup_cons.mpr ⟨?_, hN⟩)
    intro hmem
    rcases List.mem_map.mp hmem with ⟨x, hx, hxid⟩
    have hlt : x.id < db.nextId := hB x hx
    rw [hid] at hxid
    exact absurd hxid (Nat.ne_of_lt hlt)
  · intro x hx
    have hmem : x ∈ r :: db.logs := (insertByTs_perm r db.logs).subset hx
    rcases List.mem_cons.mp hmem with rfl | hx'
    · show x.id < db.nextId + 1
      rw [hid]
      exact Nat.lt_succ_self _
    · exact Nat.lt_trans (hB x hx') (Nat.lt_succ_self _)
  · have h1 : ((insertByTs r db.logs).map projSev).Perm
        (projSev r :: db.logs.map projSev) := (insertByTs_perm r db.logs).map _
    refine List.Perm.trans ?_ h1.symm
    simpa [insertRecord] using
      ((hS.append_right [projSev r]).trans (List.perm_append_singleton _ _))
  · have h1 : ((insertByTs r db.logs).map projAct).Perm
        (projAct r :: db.logs.map projAct) := (insertByTs_perm r db.logs).map _
    refine List.Perm.trans ?_ h1.symm
    simpa [insertRecord] using
      ((hA.append_right [projAct r]).trans (List.perm_append_singleton _ _))
  · exact insertByTs_pairwise r db.logs hP

theorem WF_logOp {db : DB} (hWF : WF db) (now : Int) (e : AuditEventInput) :
    WF (logOp now e db).1 :=
  WF_insertRecord hWF _ rfl

theorem WF_logBulkOp {db : DB} (hWF : WF db) (now : Int)
    (events : List AuditEventInput) : WF (logBulkOp now events db).1 := by
  suffices h : ∀ (events : List AuditEventInput) (db : DB) (acc : List Nat),
      WF db → WF (events.foldl
        (fun acc e =>
          let step := logOp now e acc.1
          (step.1, acc.2 ++ [step.2])) (db, acc)).1 by
    exact h events db [] hWF
  intro evs
  induction evs with
  | nil => intro db acc h; exact h
  | cons e es ih => intro db acc h; exact ih _ _ (WF_logOp h now e)

theorem WF_logChangeOp {db : DB} (hWF : WF db) (now : Int)
    (e : ChangeEventInput) {res : DB × Nat}
    (h : logChangeOp now e db = .ok res) : WF res.1 := by
  unfold logChangeOp at h
  by_cases hg : (e.generateDiff.getD false
      && (e.before.map truthy).getD false
      && (e.after.map truthy).getD false) = true
  · rw [if_pos hg] at h
    cases hd : generateDiff (e.before.getD .vNull) (e.after.getD .vNull) with
    | ok d =>
        rw [hd] at h
        simp only [bind, Except.bind, pure, Except.pure, Except.ok.injEq] at h
        cases h
        exact WF_insertRecord hWF _ rfl
    | error err =>
        rw [hd] at h
        simp [bind, Except.bind, throw, throwThe, MonadExceptOf.throw] at h
  · rw [if_neg hg] at h
    simp only [bind, Except.bind, pure, Except.pure, Except.ok.injEq] at h
    cases h
    exact WF_insertRecord hWF _ rfl

/-- A candidate is deleted (and counted) iff its severity is not
preserved and it passes the retention-category check. -/
def cleanupEligible (opts : CleanupOptions) (r : LogRecord) : Bool :=
  !((opts.preserveSeverity.getD []).contains r.severity)
  && !(strOptTruthy opts.retentionCategory
      && r.retentionCategory != opts.retentionCategory)

theorem cleanupStep_skip_preserved {opts : CleanupOptions} {db : DB}
    {cnt : Nat} {r : LogRecord}
    (h : r.severity ∈ opts.preserveSeverity.getD []) :
    cleanupStep opts (db, cnt) r = (db, cnt) := by
  simp [cleanupStep, h]

theorem cleanupStep_skip_category {opts : CleanupOptions} {db : DB}
    {cnt : Nat} {r : LogRecord}
    (h1 : r.severity ∉ opts.preserveSeverity.getD [])
    (h2a : strOptTruthy opts.retentionCategory = true)
    (h2b : r.retentionCategory ≠ opts.retentionCategory) :
    cleanupStep opts (db, cnt) r = (db, cnt) := by
  simp [cleanupStep, h1, h2a, h2b]

theorem cleanupStep_delete_eq {opts : CleanupOptions} {db : DB}
    {cnt : Nat} {r : LogRecord}
    (h1 : r.severity ∉ opts.preserveSeverity.getD [])
    (h2 : ¬(strOptTruthy opts.retentionCategory = true
        ∧ r.retentionCategory ≠ opts.retentionCategory)) :
    cleanupStep opts (db, cnt) r
      = ({ logs := db.logs.eraseP (fun x => x.id == r.id)
           aggSeverity := aggDelete (projSev r) db.aggSeverity
           aggAction := aggDelete (projAct r) db.aggAction
           nextId := db.nextId }, cnt + 1) := by
  rcases Decidable.not_and_iff_or_not.mp h2 with h | h
  · have h2a : strOptTruthy opts.retentionCategory = false :=
      Bool.eq_false_iff.mpr h
    simp [cleanupStep, h1, h2a]
  · have h2b : r.retentionCategory = opts.retentionCategory :=
      Decidable.not_not.mp h
    simp [cleanupStep, h1, h2b]

theorem cleanupEligible_true_iff {opts : CleanupOptions} {r : LogRecord} :
    cleanupEligible opts r = true
      ↔ (r.severity ∉ opts.preserveSeverity.getD []
          ∧ ¬(strOptTruthy opts.retentionCategory = true
              ∧ r.retentionCategory ≠ opts.retentionCategory)) := by
  cases hso : strOptTruthy opts.retentionCategory <;>
    simp [cleanupEligible, hso]

/-- The deleted counter of the cleanup loop counts exactly the eligible
candidates, independent of the store state. -/
theorem cleanup_fold_count (opts : CleanupOptions) :
    ∀ (cands : List LogRecord) (db : DB) (cnt : Nat),
      (cands.foldl (cleanupStep opts) (db, cnt)).2
        = cnt + (cands.filter (cleanupEligible opts)).length := by
  intro cands
  induction cands with
  | nil => intro db cnt; simp
  | cons r rest ih =>
      intro db cnt
      by_cases h1 : r.severity ∈ opts.preserveSeverity.getD []
      · have hel : cleanupEligible opts r = false := by
          simp [cleanupEligible, h1]
        rw [List.foldl_cons, cleanupStep_skip_preserved h1, ih,
          List.filter_cons_of_neg (by simp [hel])]
      · by_cases h2 : (strOptTruthy opts.retentionCategory = true
            ∧ r.retentionCategory ≠ opts.retentionCategory)
        · have hel : cleanupEligible opts r = false := by
            simp [cleanupEligible, h1, h2.1, h2.2]
          rw [List.foldl_cons, cleanupStep_skip_category h1 h2.1 h2.2, ih,
            List.filter_cons_of_neg (by simp [hel])]
        · have hel : cleanupEligible opts r = true :=
            cleanupEligible_true_iff.mpr ⟨h1, h2⟩
          rw [List.foldl_cons, cleanupStep_delete_eq h1 h2, ih,
            List.filter_cons_of_pos (by simp [hel])]
          simp
          omega

/-- One deleting step of the cleanup loop, on a well-formed store that
still contains the candidate, removes exactly that record and keeps the
store well-formed; every other record survives. -/
theorem cleanupStep_delete {opts : CleanupOptions} {db : DB} {cnt : Nat}
    {r : LogRecord} (hWF : WF db) (hr : r ∈ db.logs)
    (hel : cleanupEligible opts r = true) :
    WF (cleanupStep opts (db, cnt) r).1
    ∧ (r :: (cleanupStep opts (db, cnt) r).1.logs).Perm db.logs
    ∧ (cleanupStep opts (db, cnt) r).1.logs.Sublist db.logs
    ∧ (cleanupStep opts (db, cnt) r).1.nextId = db.nextId := by
  obtain ⟨hN, hB, hS, hA, hP⟩ := hWF
  obtain ⟨h1, h2⟩ := cleanupEligible_true_iff.mp hel
  have hstep := @cleanupStep_delete_eq opts db cnt r h1 h2
  have huniq : ∀ b ∈ db.logs, (b.id == r.id) = true → b = r := by
    intro b hb hbid
    exact id_inj hN hb hr (by simpa using hbid)
  have hperm : (r :: db.logs.eraseP (fun x => x.id == r.id)).Perm db.logs :=
    cons_eraseP_perm _ r db.logs hr (by simp) huniq
  have hsub : (db.logs.eraseP (fun x => x.id == r.id)).Sublist db.logs :=
    List.eraseP_sublist _
  rw [hstep]
  refine ⟨⟨?_, ?_, ?_, ?_, ?_⟩, hperm, hsub, rfl⟩
  · exact (hN.sublist (hsub.map _))
  · intro x hx
    exact hB x (hsub.subset hx)
  · have hS' : db.aggSeverity.Perm
        (projSev r :: (db.logs.eraseP (fun x => x.id == r.id)).map projSev) :=
      hS.trans ((hperm.map projSev).symm)
    have herase := hS'.erase (projSev r)
    rwa [List.erase_cons_head] at herase
  · have hA' : db.aggAction.Perm
        (projAct r :: (db.logs.eraseP (fun x => x.id == r.id)).map projAct) :=
      hA.trans ((hperm.map projAct).symm)
    have herase := hA'.erase (projAct r)
    rwa [List.erase_cons_head] at herase
  · exact hP.sublist hsub

/-- The cleanup loop keeps the store well-formed, only ever removes
documents, keeps the id generator, and never deletes a record whose
severity is preserved. -/
theorem cleanup_fold_WF (opts : CleanupOptions) :
    ∀ (cands : List LogRecord) (db : DB) (cnt : Nat),
      WF db → (∀ c ∈ cands, c ∈ db.logs) → ((cands.map (·.id)).Nodup) →
      WF (cands.foldl (cleanupStep opts) (db, cnt)).1
      ∧ (cands.foldl (cleanupStep opts) (db, cnt)).1.logs.Sublist db.logs
      ∧ (∀ x ∈ db.logs, x.severity ∈ opts.preserveSeverity.getD [] →
          x ∈ (cands.foldl (cleanupStep opts) (db, cnt)).1.logs)
      ∧ (cands.foldl (cleanupStep opts) (db, cnt)).1.nextId = db.nextId := by
  intro cands
  induction cands with
  | nil =>
      intro db cnt hWF _ _
      exact ⟨hWF, List.Sublist.refl _, fun x hx _ => hx, rfl⟩
  | cons r rest ih =>
      intro db cnt hWF hmem hnodup
      have hr : r ∈ db.logs := hmem r (List.mem_cons_self _ _)
      have hnodup' : (rest.map (·.id)).Nodup := (List.nodup_cons.mp hnodup).2
      have hrid : r.id ∉ rest.map (·.id) := (List.nodup_cons.mp hnodup).1
      by_cases hel : cleanupEligible opts r = true
      · obtain ⟨hWF2, hperm, hsub, hnext⟩ := cleanupStep_delete hWF hr hel
        set db2 := (cleanupStep opts (db, cnt) r).1 with hdb2
        have hmem2 : ∀ c ∈ rest, c ∈ db2.logs := by
          intro c hc
          have hcdb : c ∈ db.logs := hmem c (List.mem_cons_of_mem _ hc)
          have hcid : c.id ≠ r.id := by
            intro hcontra
            exact hrid (hcontra ▸ List.mem_map_of_mem (·.id) hc)
          have hmemc := hperm.symm.subset hcdb
          rcases List.mem_cons.mp hmemc with rfl | h
          · exact absurd rfl hcid
          · exact h
        have hfold : (r :: rest).foldl (cleanupStep opts) (db, cnt)
            = rest.foldl (cleanupStep opts)
                (db2, (cleanupStep opts (db, cnt) r).2) := by
          rw [List.foldl_cons]
        rw [hfold]
        obtain ⟨ih1, ih2, ih3, ih4⟩ :=
          ih db2 (cleanupStep opts (db, cnt) r).2 hWF2 hmem2 hnodup'
        have hrNotPres : r.severity ∉ opts.preserveSeverity.getD [] :=
          (cleanupEligible_true_iff.mp hel).1
        refine ⟨ih1, ih2.trans hsub, ?_, by rw [ih4, hnext]⟩
        intro x hx hxpres
        have hxr : x ≠ r := by
          intro hcontra
          exact hrNotPres (hcontra ▸ hxpres)
        have hmemx := hperm.symm.subset hx
        rcases List.mem_cons.mp hmemx with rfl | h
        · exact absurd rfl hxr
        · exact ih3 x h hxpres
      · have h1h2 := fun (a : r.severity ∉ opts.preserveSeverity.getD [])
            (b : ¬(strOptTruthy opts.retentionCategory = true
              ∧ r.retentionCategory ≠ opts.retentionCategory)) =>
          hel (cleanupEligible_true_iff.mpr ⟨a, b⟩)
        have hstep : cleanupStep opts (db, cnt) r = (db, cnt) := by
          by_cases h1 : r.severity ∈ opts.preserveSeverity.getD []
          · exact cleanupStep_skip_preserved h1
          · have h2 : strOptTruthy opts.retentionCategory = true
                ∧ r.retentionCategory ≠ opts.retentionCategory :=
              Decidable.not_not.mp (fun hn => h1h2 h1 hn)
            exact cleanupStep_skip_category h1 h2.1 h2.2
        have hfold : (r :: rest).foldl (cleanupStep opts) (db, cnt)
            = rest.foldl (cleanupStep opts) (db, cnt) := by
          rw [List.foldl_cons, hstep]
        rw [hfold]
        exact ih db cnt hWF (fun c hc => hmem c (List.mem_cons_of_mem _ hc)) hnodup'

theorem cleanupOp_facts (now : Int) (opts : CleanupOptions) (db : DB)
    (hWF : WF db) :
    WF (cleanupOp now opts db).1
    ∧ (cleanupOp now opts db).1.logs.Sublist db.logs
    ∧ (∀ x ∈ db.logs, x.severity ∈ opts.preserveSeverity.getD [] →
        x ∈ (cleanupOp now opts db).1.logs)
    ∧ (cleanupOp now opts db).1.nextId = db.nextId := by
  have hsub : (cleanupCandidates db
      (now - opts.olderThanDays.getD 90 * 24 * 60 * 60 * 1000)
      (opts.batchSize.getD 100)).Sublist db.logs :=
    (List.take_sublist _ _).trans (List.filter_sublist _)
  exact cleanup_fold_WF opts _ db 0 hWF (fun c hc => hsub.subset hc)
    (hWF.1.sublist (hsub.map _))

theorem WF_applyOp {db : DB} (hWF : WF db) (t : Int × AuditOp) :
    WF (applyOp db t) := by
  rcases t with ⟨now, op⟩
  cases op with
  | opLog e => exact WF_logOp hWF now e
  | opLogChange e =>
      show WF (match logChangeOp now e db with
        | .ok res => res.1
        | .error _ => db)
      cases h : logChangeOp now e db with
      | ok res => exact WF_logChangeOp hWF now e h
      | error _ => exact hWF
  | opLogBulk es => exact WF_logBulkOp hWF now es
  | opCleanup o => exact (cleanupOp_facts now o db hWF).1

theorem WF_runOps (ops : List (Int × AuditOp)) : WF (runOps ops) := by
  suffices h : ∀ (ops : List (Int × AuditOp)) (db : DB), WF db →
      WF (ops.foldl applyOp db) by
    exact h ops emptyDB WF_empty
  intro ops
  induction ops with
  | nil => intro db h; exact h
  | cons t ts ih => intro db h; exact ih _ (WF_applyOp h t)

/-- C1 — Aggregate-primary consistency.  In every state reached from the
empty store by completed `log`, `logChange`, `logBulk` and `cleanup`
transactions, each aggregate's count of a namespace over any bounds
equals the number of Primary Log records with that dimension value and
a timestamp inside the bounds. -/
theorem aggregate_primary_consistency (ops : List (Int × AuditOp))
    (ns : String) (b : Bounds) :
    aggCount (runOps ops).aggSeverity ns b
      = ((runOps ops).logs.filter
          (fun r => sevString r.severity == ns && boundsContain b r.timestamp)).length
    ∧ aggCount (runOps ops).aggAction ns b
      = ((runOps ops).logs.filter
          (fun r => r.action == ns && boundsContain b r.timestamp)).length := by
  obtain ⟨-, -, hS, hA, -⟩ := WF_runOps ops
  constructor
  · have hperm := hS.filter (fun e => e.ns == ns && boundsContain b e.key)
    have hlen := hperm.length_eq
    unfold aggCount
    rw [hlen, List.filter_map, List.length_map]
    rfl
  · have hperm := hA.filter (fun e => e.ns == ns && boundsContain b e.key)
    have hlen := hperm.length_eq
    unfold aggCount
    rw [hlen, List.filter_map, List.length_map]
    rfl

/-- C5 — Deletion atomicity.  After a `cleanup` call on a well-formed
store deletes record `R`, `get(R.id)` returns null and no entry of
either aggregate references `R`, so no window of either Aggregate Index
counts it. -/
theorem deletion_atomicity (now : Int) (opts : CleanupOptions) (db : DB)
    (R : LogRecord) (hWF : WF db) (hin : R ∈ db.logs)
    (hgone : R ∉ (cleanupOp now opts db).1.logs) :
    getOp (cleanupOp now opts db).1 R.id = none
    ∧ (∀ e ∈ (cleanupOp now opts db).1.aggSeverity, e.ref ≠ R.id)
    ∧ (∀ e ∈ (cleanupOp now opts db).1.aggAction, e.ref ≠ R.id) := by
  obtain ⟨hWF', hsub, -, -⟩ := cleanupOp_facts now opts db hWF
  have hid : ∀ x ∈ (cleanupOp now opts db).1.logs, x.id ≠ R.id := by
    intro x hx hcontra
    have hxdb : x ∈ db.logs := hsub.subset hx
    have hxR : x = R := id_inj hWF.1 hxdb hin hcontra
    exact hgone (hxR ▸ hx)
  refine ⟨?_, ?_, ?_⟩
  · apply List.find?_eq_none.mpr
    intro x hx
    simpa using hid x hx
  · intro e he
    have hmem := hWF'.2.2.1.subset he
    rcases List.mem_map.mp hmem with ⟨x, hx, rfl⟩
    exact hid x hx
  · intro e he
    have hmem := hWF'.2.2.2.1.subset he
    rcases List.mem_map.mp hmem with ⟨x, hx, rfl⟩
    exact hid x hx

def wEvent5 : AuditEventInput := { action := "user.login", severity := .info }

def wDB5 : DB := runOps [(0, .opLog wEvent5)]

def wRec5 : LogRecord := recordOfEvent 0 0 wEvent5

/-- Witness for C5: a record logged at time 0 is deleted by a cleanup 91
days later; afterwards `get` is null and both aggregates are free of it. -/
theorem deletion_atomicity_witness :
    WF wDB5 ∧ wRec5 ∈ wDB5.logs
    ∧ wRec5 ∉ (cleanupOp 7862400000 {} wDB5).1.logs
    ∧ (getOp (cleanupOp 7862400000 {} wDB5).1 wRec5.id = none
        ∧ (∀ e ∈ (cleanupOp 7862400000 {} wDB5).1.aggSeverity, e.ref ≠ wRec5.id)
        ∧ (∀ e ∈ (cleanupOp 7862400000 {} wDB5).1.aggAction, e.ref ≠ wRec5.id)) :=
  ⟨WF_runOps _, List.mem_cons_self _ _, fun h => List.not_mem_nil wRec5 h,
    deletion_atomicity 7862400000 {} wDB5 wRec5 (WF_runOps _)
      (List.mem_cons_self _ _) (fun h => List.not_mem_nil wRec5 h)⟩

/-- C6 — Retention exemption.  A record whose severity is in the
`preserveSeverity` list survives every `cleanup` call on a well-formed
store, regardless of how old it is, and the returned deleted count
counts only eligible candidates — whose severity is never preserved. -/
theorem retention_exemption (now : Int) (opts : CleanupOptions) (db : DB)
    (r : LogRecord) (hWF : WF db)
    (hr : r ∈ db.logs) (hp : r.severity ∈ opts.preserveSeverity.getD []) :
    r ∈ (cleanupOp now opts db).1.logs
    ∧ (cleanupOp now opts db).2
        = ((cleanupCandidates db
              (now - opts.olderThanDays.getD 90 * 24 * 60 * 60 * 1000)
              (opts.batchSize.getD 100)).filter (cleanupEligible opts)).length
    ∧ (∀ c : LogRecord, cleanupEligible opts c = true →
        c.severity ∉ opts.preserveSeverity.getD []) := by
  refine ⟨(cleanupOp_facts now opts db hWF).2.2.1 r hr hp, ?_, ?_⟩
  · have h := cleanup_fold_count opts
      (cleanupCandidates db
        (now - opts.olderThanDays.getD 90 * 24 * 60 * 60 * 1000)
        (opts.batchSize.getD 100)) db 0
    simpa using h
  · intro c hc
    exact (cleanupEligible_true_iff.mp hc).1

def wEvent6 : AuditEventInput := { action := "security.breach", severity := .critical }

def wDB6 : DB := runOps [(0, .opLog wEvent6)]

def wRec6 : LogRecord := recordOfEvent 0 0 wEvent6

def wOpts6 : CleanupOptions := { preserveSeverity := some [.critical] }

/-- Witness for C6: a critical record logged at time 0 survives a
cleanup 91 days later that preserves critical severity. -/
theorem retention_exemption_witness :
    WF wDB6 ∧ wRec6 ∈ wDB6.logs
    ∧ wRec6.severity ∈ wOpts6.preserveSeverity.getD []
    ∧ wRec6 ∈ (cleanupOp 7862400000 wOpts6 wDB6).1.logs :=
  ⟨WF_runOps _, List.mem_cons_self _ _, List.mem_cons_self _ _,
    (retention_exemption 7862400000 wOpts6 wDB6 wRec6 (WF_runOps _)
      (List.mem_cons_self _ _) (List.mem_cons_self _ _)).1⟩

/-! ### logBulk: one timestamp for the whole batch -/

/-- The documents a `logBulk` call creates: sequential ids, the one
shared timestamp. -/
def bulkRecords (id : Nat) (now : Int) : List AuditEventInput → List LogRecord
  | [] => []
  | e :: es => recordOfEvent id now e :: bulkRecords (id + 1) now es

theorem logBulkOp_fst (now : Int) :
    ∀ (events : List AuditEventInput) (db : DB) (acc : List Nat),
      (events.foldl
        (fun acc e =>
          let step := logOp now e acc.1
          (step.1, acc.2 ++ [step.2])) (db, acc)).1
      = events.foldl (fun d e => (logOp now e d).1) db := by
  intro events
  induction events with
  | nil => intro db acc; rfl
  | cons e es ih => intro db acc; exact ih _ _

theorem logBulk_fold_perm (now : Int) :
    ∀ (events : List AuditEventInput) (db : DB),
      (events.foldl (fun d e => (logOp now e d).1) db).logs.Perm
        (db.logs ++ bulkRecords db.nextId now events) := by
  intro events
  induction events with
  | nil => intro db; simp [bulkRecords]
  | cons e es ih =>
      intro db
      have h1 := ih (logOp now e db).1
      have hlogs : (logOp now e db).1.logs.Perm
          (recordOfEvent db.nextId now e :: db.logs) :=
        insertByTs_perm _ _
      have h2a : ((logOp now e db).1.logs
            ++ bulkRecords (db.nextId + 1) now es).Perm
          (recordOfEvent db.nextId now e
            :: (db.logs ++ bulkRecords (db.nextId + 1) now es)) :=
        hlogs.append_right _
      have h2b : (recordOfEvent db.nextId now e
            :: (db.logs ++ bulkRecords (db.nextId + 1) now es)).Perm
          (db.logs ++ recordOfEvent db.nextId now e
            :: bulkRecords (db.nextId + 1) now es) :=
        List.perm_middle.symm
      rw [List.foldl_cons]
      exact h1.trans (h2a.trans h2b)

theorem bulkRecords_timestamps (now : Int) :
    ∀ (events : List AuditEventInput) (id : Nat),
      (bulkRecords id now events).all (fun r => r.timestamp == now) = true := by
  intro events
  induction events with
  | nil => intro id; rfl
  | cons e es ih =>
      intro id
      simp only [bulkRecords, List.all_cons, Bool.and_eq_true]
      exact ⟨by simp [recordOfEvent], ih (id + 1)⟩

/-- C10 — `logBulk` inserts all records of a batch with one shared
timestamp: the resulting table is, as a multiset, the old table plus the
batch's records, every one of which carries the single `Date.now()`
taken before the loop. -/
theorem logBulk_shared_timestamp (now : Int) (events : List AuditEventInput)
    (db : DB) :
    (logBulkOp now events db).1.logs.Perm
      (db.logs ++ bulkRecords db.nextId now events)
    ∧ (bulkRecords db.nextId now events).all
        (fun r => r.timestamp == now) = true := by
  constructor
  · rw [show (logBulkOp now events db).1
        = events.foldl (fun d e => (logOp now e d).1) db from
      logBulkOp_fst now events db []]
    exact logBulk_fold_perm now events db
  · exact bulkRecords_timestamps now events db.nextId

/-! ### detectAnomalies -/

theorem detect_fold (db : DB) (now : Int) :
    ∀ (patterns : List AnomalyPattern) (acc : List Anomaly),
      patterns.foldl
        (fun acc p =>
          let count := aggCount db.aggAction p.action (anomalyBounds now p)
          if p.threshold ≤ (count : Int) then acc ++ [mkAnomaly db now p]
          else acc) acc
      = acc ++ (patterns.filter (fun p =>
          decide (p.threshold
            ≤ (aggCount db.aggAction p.action (anomalyBounds now p) : Int)))).map
          (mkAnomaly db now) := by
  intro patterns
  induction patterns with
  | nil => intro acc; simp
  | cons p ps ih =>
      intro acc
      by_cases h : p.threshold
          ≤ (aggCount db.aggAction p.action (anomalyBounds now p) : Int)
      · rw [List.foldl_cons, if_pos h, ih,
          List.filter_cons_of_pos (by simpa using h)]
        simp
      · rw [List.foldl_cons, if_neg h, ih,
          List.filter_cons_of_neg (by simpa using h)]

/-- C4 — `detectAnomalies` emits, for each pattern independently, the
record `{action, count, threshold, windowMinutes, detectedAt = now}`
iff the action aggregate's count over `[now - windowMinutes·60 000, ∞)`
meets the threshold; it reads only the action aggregate, never the
Primary Log. -/
theorem anomaly_detection_spec (db : DB) (now : Int)
    (patterns : List AnomalyPattern) :
    detectAnomalies db now patterns
      = (patterns.filter (fun p =>
          decide (p.threshold
            ≤ (aggCount db.aggAction p.action (anomalyBounds now p) : Int)))).map
          (mkAnomaly db now)
    ∧ ∀ db' : DB, db'.aggAction = db.aggAction →
        detectAnomalies db' now patterns = detectAnomalies db now patterns := by
  constructor
  · simpa using detect_fold db now patterns []
  · intro db' h
    simp [detectAnomalies, mkAnomaly, h]

def wDB4 : DB := ⟨[], [], [⟨"login.failed", 50, 7⟩], 0⟩

def wDB4' : DB :=
  ⟨[recordOfEvent 7 50 { action := "login.failed", severity := .warning }],
    [], [⟨"login.failed", 50, 7⟩], 8⟩

/-- Witness for C4: two stores with the same action aggregate but
different Primary Logs produce identical anomaly reports. -/
theorem anomaly_detection_spec_witness :
    detectAnomalies wDB4' 60000 [⟨"login.failed", 1, 5⟩]
      = detectAnomalies wDB4 60000 [⟨"login.failed", 1, 5⟩] :=
  (anomaly_detection_spec wDB4 60000 [⟨"login.failed", 1, 5⟩]).2 wDB4' rfl

/-! ### generateReport: bounded, truncation-flagged, never an error -/

/-- C8 — `generateReport` is total: it processes
`min(matching, min(maxRecords ?? 10000, 10000))` records, reports that
number as `recordCount` (hence never more than 10000), and sets
`truncated` iff the time range holds strictly more matching records
than the limit. -/
theorem report_truncation (db : DB) (now : Int) (a : ReportArgs) :
    (generateReport db now a).recordCount
      = min ((db.logs.filter (fun r =>
            decide (a.startDate ≤ r.timestamp)
              && decide (r.timestamp ≤ a.endDate))).length)
          (min (a.maxRecords.getD MAX_REPORT_RECORDS) MAX_REPORT_RECORDS)
    ∧ ((generateReport db now a).truncated = true
        ↔ min (a.maxRecords.getD MAX_REPORT_RECORDS) MAX_REPORT_RECORDS
            < (db.logs.filter (fun r =>
                decide (a.startDate ≤ r.timestamp)
                  && decide (r.timestamp ≤ a.endDate))).length)
    ∧ (generateReport db now a).recordCount ≤ MAX_REPORT_RECORDS := by
  have hcount : (generateReport db now a).recordCount
      = ((if decide (((db.logs.filter (fun r =>
              decide (a.startDate ≤ r.timestamp)
                && decide (r.timestamp ≤ a.endDate))).take
              (min (a.maxRecords.getD MAX_REPORT_RECORDS) MAX_REPORT_RECORDS + 1)).length
            > min (a.maxRecords.getD MAX_REPORT_RECORDS) MAX_REPORT_RECORDS) = true
          then ((db.logs.filter (fun r =>
              decide (a.startDate ≤ r.timestamp)
                && decide (r.timestamp ≤ a.endDate))).take
              (min (a.maxRecords.getD MAX_REPORT_RECORDS) MAX_REPORT_RECORDS + 1)).take
              (min (a.maxRecords.getD MAX_REPORT_RECORDS) MAX_REPORT_RECORDS)
          else (db.logs.filter (fun r =>
              decide (a.startDate ≤ r.timestamp)
                && decide (r.timestamp ≤ a.endDate))).take
              (min (a.maxRecords.getD MAX_REPORT_RECORDS) MAX_REPORT_RECORDS + 1)).map
          (reportRow (a.includeFields.getD defaultReportFields))).length := rfl
  have htrunc : (generateReport db now a).truncated
      = decide (((db.logs.filter (fun r =>
            decide (a.startDate ≤ r.timestamp)
              && decide (r.timestamp ≤ a.endDate))).take
            (min (a.maxRecords.getD MAX_REPORT_RECORDS) MAX_REPORT_RECORDS + 1)).length
          > min (a.maxRecords.getD MAX_REPORT_RECORDS) MAX_REPORT_RECORDS) := rfl
  refine ⟨?_, ?_, ?_⟩
  · rw [hcount, List.length_map]
    by_cases h : ((db.logs.filter (fun r =>
        decide (a.startDate ≤ r.timestamp)
          && decide (r.timestamp ≤ a.endDate))).take
        (min (a.maxRecords.getD MAX_REPORT_RECORDS) MAX_REPORT_RECORDS + 1)).length
        > min (a.maxRecords.getD MAX_REPORT_RECORDS) MAX_REPORT_RECORDS
    · rw [if_pos (by simpa using h)]
      rw [List.length_take] at h ⊢
      rw [List.length_take]
      omega
    · rw [if_neg (by simpa using h)]
      rw [List.length_take] at h ⊢
      omega
  · rw [htrunc]
    rw [decide_eq_true_eq, List.length_take]
    omega
  · rw [hcount, List.length_map]
    by_cases h : ((db.logs.filter (fun r =>
        decide (a.startDate ≤ r.timestamp)
          && decide (r.timestamp ≤ a.endDate))).take
        (min (a.maxRecords.getD MAX_REPORT_RECORDS) MAX_REPORT_RECORDS + 1)).length
        > min (a.maxRecords.getD MAX_REPORT_RECORDS) MAX_REPORT_RECORDS
    · rw [if_pos (by simpa using h)]
      rw [List.length_take, List.length_take]
      have : min (a.maxRecords.getD MAX_REPORT_RECORDS) MAX_REPORT_RECORDS
          ≤ MAX_REPORT_RECORDS := Nat.min_le_right _ _
      omega
    · rw [if_neg (by simpa using h)]
      rw [List.length_take] at h ⊢
      have : min (a.maxRecords.getD MAX_REPORT_RECORDS) MAX_REPORT_RECORDS
          ≤ MAX_REPORT_RECORDS := Nat.min_le_right _ _
      omega

/-! ### generateDiff: identical structured values produce no lines -/

/-- C9 — Diff no-op.  For every structured (key-value) value `X`,
`generateDiff(X, X)` emits no removal, addition or change line: the
joined output is the empty string. -/
theorem diff_noop (fs : List (String × Value)) :
    generateDiff (.vObj fs) (.vObj fs) = .ok "" := by
  have hasAll : ∀ k ∈ fs.map (·.1), hasProp (.vObj fs) k = true := by
    intro k hk
    rcases List.mem_map.mp hk with ⟨p, hp, rfl⟩
    have : (fs.find? (fun f => f.1 == p.1)).isSome := by
      apply List.find?_isSome.mpr
      exact ⟨p, hp, by simp⟩
    simpa [hasProp, getProp] using this
  have hremoved : ((fs.map (·.1)).filter
      (fun k => !(hasProp (.vObj fs) k))).length = 0 := by
    rw [List.length_eq_zero]
    apply List.filter_eq_nil_iff.mpr
    intro k hk
    simp [hasAll k hk]
  have hadded : (fs.map (·.1)).filterMap (fun k =>
      if !(hasProp (.vObj fs) k) then
        some ("+ " ++ k ++ ": " ++ stringify ((getProp (.vObj fs) k).getD .vNull))
      else if stringify ((getProp (.vObj fs) k).getD .vNull)
          ≠ stringify ((getProp (.vObj fs) k).getD .vNull) then
        some ("~ " ++ k ++ ": " ++ stringify ((getProp (.vObj fs) k).getD .vNull)
          ++ " → " ++ stringify ((getProp (.vObj fs) k).getD .vNull))
      else none) = [] := by
    apply List.filterMap_eq_nil_iff.mpr
    intro k hk
    simp [hasAll k hk]
  unfold generateDiff
  rw [List.length_eq_zero] at hremoved
  simp only [typeofIsObject, Bool.not_true, Bool.or_self, Bool.false_eq_true,
    if_false, objectKeys, bind, Except.bind, hremoved, hadded,
    List.nil_append, String.intercalate]
  rfl

/-! ### search: the filter chain and cursor pagination -/

theorem filter_ite {α : Type} (b : Bool) (p : α → Bool) (l : List α) :
    (if b = true then l.filter p else l) = l.filter (fun r => !b || p r) := by
  cases b <;> simp

theorem searchFilterChain_eq (f : QueryFilters) (l : List LogRecord) :
    searchFilterChain f l = l.filter (matchesFilters f) := by
  simp only [searchFilterChain]
  rw [filter_ite, filter_ite, filter_ite, filter_ite, filter_ite,
    filter_ite, filter_ite, List.filter_filter, List.filter_filter,
    List.filter_filter, List.filter_filter, List.filter_filter,
    List.filter_filter]
  apply List.filter_congr
  intro r _
  unfold matchesFilters
  cases (!numOptTruthy f.fromTimestamp
      || decide (f.fromTimestamp.getD 0 ≤ r.timestamp)) <;>
    cases (!numOptTruthy f.toTimestamp
      || decide (r.timestamp ≤ f.toTimestamp.getD 0)) <;>
    cases (!listGiven f.severity
      || (f.severity.getD []).contains r.severity) <;>
    cases (!listGiven f.actions || (f.actions.getD []).contains r.action) <;>
    cases (!listGiven f.resourceTypes || (match r.resourceType with
      | some rt => rt ≠ "" && (f.resourceTypes.getD []).contains rt
      | none => false : Bool)) <;>
    cases (!listGiven f.actorIds || (match r.actorId with
      | some a => a ≠ "" && (f.actorIds.getD []).contains a
      | none => false : Bool)) <;>
    cases (!listGiven f.tags || (match r.tags with
      | some ts => (f.tags.getD []).any (fun tag => ts.contains tag)
      | none => false : Bool)) <;>
    simp_all

theorem findIdx_at (R : List LogRecord) (hN : (R.map (·.id)).Nodup) :
    ∀ (j : Nat) (hj : j < R.length),
      R.findIdx? (fun r => r.id == (R.get ⟨j, hj⟩).id) = some j := by
  induction R with
  | nil => intro j hj; cases (Nat.not_lt_zero j) hj
  | cons x xs ih =>
      intro j hj
      cases j with
      | zero => simp [List.findIdx?_cons]
      | succ j =>
          have hj' : j < xs.length := Nat.lt_of_succ_lt_succ hj
          have hget : (x :: xs).get ⟨j + 1, hj⟩ = xs.get ⟨j, hj'⟩ := rfl
          have hxid : x.id ≠ (xs.get ⟨j, hj'⟩).id := by
            intro hcontra
            have hmem : (xs.get ⟨j, hj'⟩).id ∈ xs.map (·.id) :=
              List.mem_map_of_mem _ (xs.get_mem _ _)
            exact (List.nodup_cons.mp hN).1
              (by show x.id ∈ xs.map (·.id); rw [hcontra]; exact hmem)
          rw [hget, List.findIdx?_cons, if_neg (by simpa using hxid),
            List.findIdx?_succ, ih (List.nodup_cons.mp hN).2 j hj']
          rfl

theorem searchPages_tiles (db : DB) (f : QueryFilters) (limit : Nat)
    (hlim : 1 ≤ limit)
    (hN : ((searchFilterChain f (db.logs.reverse.take (limit * 10))).map
      (·.id)).Nodup) :
    ∀ (fuel : Nat) (cur : Option Nat) (i : Nat),
      searchStartIndex
        (searchFilterChain f (db.logs.reverse.take (limit * 10))) cur = i →
      i ≤ (searchFilterChain f (db.logs.reverse.take (limit * 10))).length →
      (searchFilterChain f (db.logs.reverse.take (limit * 10))).length - i < fuel →
      searchPages db f limit fuel cur
        = (searchFilterChain f (db.logs.reverse.take (limit * 10))).drop i := by
  intro fuel
  induction fuel with
  | zero => intro cur i _ _ hfuel; omega
  | succ fuel ih =>
      intro cur i hcur hi hfuel
      have hitems : (searchOp db f ⟨cur, limit⟩).items
          = ((searchFilterChain f (db.logs.reverse.take (limit * 10))).drop i).take
            limit := by
        rw [← hcur]; rfl
      have hhasMore : (searchOp db f ⟨cur, limit⟩).hasMore
          = decide (i + limit
            < (searchFilterChain f (db.logs.reverse.take (limit * 10))).length) := by
        rw [← hcur]; rfl
      set R := searchFilterChain f (db.logs.reverse.take (limit * 10)) with hR
      by_cases hmore : i + limit < R.length
      · have hhas : (searchOp db f ⟨cur, limit⟩).hasMore = true := by
          rw [hhasMore]; exact decide_eq_true hmore
        have hlenitems : ((R.drop i).take limit).length = limit := by
          rw [List.length_take, List.length_drop]; omega
        have hidx : i + (limit - 1) < R.length := by omega
        have hlast : ((R.drop i).take limit).getLast?
            = some (R.get ⟨i + (limit - 1), hidx⟩) := by
          rw [List.getLast?_eq_get?, hlenitems,
            List.get?_take (by omega : limit - 1 < limit),
            List.get?_drop, List.get?_eq_get hidx]
        have hcursor : (searchOp db f ⟨cur, limit⟩).cursor
            = some (R.get ⟨i + (limit - 1), hidx⟩).id := by
          have h0 : (searchOp db f ⟨cur, limit⟩).cursor
              = (match ((R.drop (searchStartIndex R cur)).take limit).getLast? with
                 | some r => some r.id
                 | none => none) := rfl
          rw [h0, hcur, hlast]
        have hnext : searchStartIndex R
            (some (R.get ⟨i + (limit - 1), hidx⟩).id) = i + limit := by
          have h0 : searchStartIndex R
              (some (R.get ⟨i + (limit - 1), hidx⟩).id)
              = (match R.findIdx?
                  (fun r => r.id == (R.get ⟨i + (limit - 1), hidx⟩).id) with
                 | some k => k + 1
                 | none => 0) := rfl
          rw [h0, findIdx_at R hN (i + (limit - 1)) hidx]
          show i + (limit - 1) + 1 = i + limit
          omega
        have hrec := ih (searchOp db f ⟨cur, limit⟩).cursor (i + limit)
          (by rw [hcursor]; exact hnext) (by omega) (by omega)
        show (searchOp db f ⟨cur, limit⟩).items
            ++ (if (searchOp db f ⟨cur, limit⟩).hasMore then
                searchPages db f limit fuel (searchOp db f ⟨cur, limit⟩).cursor
              else []) = R.drop i
        rw [hitems, hhas, if_pos rfl, hrec]
        rw [show R.drop (i + limit) = (R.drop i).drop limit by
          rw [List.drop_drop]]
        exact List.take_append_drop limit (R.drop i)
      · have hhas : (searchOp db f ⟨cur, limit⟩).hasMore = false := by
          rw [hhasMore]; exact decide_eq_false hmore
        show (searchOp db f ⟨cur, limit⟩).items
            ++ (if (searchOp db f ⟨cur, limit⟩).hasMore then
                searchPages db f limit fuel (searchOp db f ⟨cur, limit⟩).cursor
              else []) = R.drop i
        rw [hitems, hhas, if_neg (by simp), List.append_nil]
        apply List.take_of_length_le
        rw [List.length_drop]
        omega

theorem search_results_nodup (db : DB) (f : QueryFilters) (limit : Nat)
    (hWF : WF db) :
    ((searchFilterChain f (db.logs.reverse.take (limit * 10))).map
      (·.id)).Nodup := by
  rw [searchFilterChain_eq]
  have hsub : ((db.logs.reverse.take (limit * 10)).filter
      (matchesFilters f)).Sublist db.logs.reverse :=
    (List.filter_sublist _).trans (List.take_sublist _ _)
  have hrev : (db.logs.reverse.map (·.id)).Nodup := by
    rw [List.map_reverse, List.nodup_reverse]
    exact hWF.1
  exact hrev.sublist (hsub.map _)

/-- C2 (amended) — Cursor pagination over the scanned window.  Search
only ever examines the `limit·10` most recent records; within that
window, iterating `search` from `cursor = null`, feeding back each
returned cursor while `hasMore`, returns exactly the matching records of
the window — each visited exactly once (distinct ids) and in
time-descending order.  Matching records older than the window are never
visited (they are not in the filtered window). -/
theorem cursor_pagination_window (db : DB) (f : QueryFilters) (limit : Nat)
    (hWF : WF db) (hlim : 1 ≤ limit) :
    searchPages db f limit (db.logs.length + 1) none
      = (db.logs.reverse.take (limit * 10)).filter (matchesFilters f)
    ∧ ((db.logs.reverse.take (limit * 10)).filter (matchesFilters f)).Pairwise
        (fun a b => b.timestamp ≤ a.timestamp)
    ∧ (((db.logs.reverse.take (limit * 10)).filter (matchesFilters f)).map
        (·.id)).Nodup := by
  have hN := search_results_nodup db f limit hWF
  have hlen : (searchFilterChain f (db.logs.reverse.take (limit * 10))).length
      ≤ db.logs.length := by
    rw [searchFilterChain_eq]
    have hsub : ((db.logs.reverse.take (limit * 10)).filter
        (matchesFilters f)).Sublist db.logs.reverse :=
      (List.filter_sublist _).trans (List.take_sublist _ _)
    have := hsub.length_le
    rwa [List.length_reverse] at this
  refine ⟨?_, ?_, ?_⟩
  · have htiles := searchPages_tiles db f limit hlim hN
      (db.logs.length + 1) none 0 rfl (Nat.zero_le _) (by omega)
    rw [htiles, List.drop_zero, searchFilterChain_eq]
  · have hdesc : db.logs.reverse.Pairwise
        (fun a b => b.timestamp ≤ a.timestamp) :=
      List.pairwise_reverse.mpr hWF.2.2.2.2
    exact ((hdesc.sublist (List.take_sublist _ _)).sublist
      (List.filter_sublist _))
  · have h := hN
    rwa [searchFilterChain_eq] at h

def wTrace2 : List (Int × AuditOp) :=
  (1, .opLog { action := "security.breach", severity := .critical })
    :: (List.range 10).map
      (fun n => ((n + 2 : Int), AuditOp.opLog { action := "noise", severity := .info }))

def wDB2 : DB := runOps wTrace2

def wFilters2 : QueryFilters := { severity := some [.critical] }

/-- Counterexample to C2 as stated: in an 11-record log whose only
critical record is the oldest, paginating a critical-severity search
with `limit = 1` to exhaustion visits nothing, because the record lies
outside the `limit·10` most recent records; yet exactly one record of
the log matches the filter set. -/
theorem cursor_pagination_counterexample :
    (searchPages wDB2 wFilters2 1 12 none).length = 0
    ∧ (wDB2.logs.filter (matchesFilters wFilters2)).length = 1 := by
  decide

/-- Witness for C2 (amended): a two-record store paginated with
`limit = 1` and no filters yields both records, newest first. -/
theorem cursor_pagination_window_witness :
    WF wDB6 ∧ 1 ≤ 1
    ∧ (searchPages wDB6 {} 1 (wDB6.logs.length + 1) none
        = (wDB6.logs.reverse.take (1 * 10)).filter (matchesFilters {})
      ∧ ((wDB6.logs.reverse.take (1 * 10)).filter (matchesFilters {})).Pairwise
          (fun a b => b.timestamp ≤ a.timestamp)
      ∧ (((wDB6.logs.reverse.take (1 * 10)).filter (matchesFilters {})).map
          (·.id)).Nodup) :=
  ⟨WF_runOps _, le_refl 1,
    cursor_pagination_window wDB6 {} 1 (WF_runOps _) (le_refl 1)⟩

/-- C3 (amended) — `hasMore` is accurate relative to the scanned window:
a `search` call reports `hasMore = true` iff, among the matching records
of the `limit·10` most recent records, strictly more remain beyond the
page it returned.  (The counterexample shows it is not accurate with
respect to the whole log.) -/
theorem hasMore_window (db : DB) (f : QueryFilters) (pag : Pagination) :
    ((searchOp db f pag).hasMore = true
      ↔ ∃ r, r ∈ (searchFilterChain f
          (db.logs.reverse.take (pag.limit * 10))).drop
            (searchStartIndex
              (searchFilterChain f (db.logs.reverse.take (pag.limit * 10)))
              pag.cursor + pag.limit))
    ∧ (searchOp db f pag).items
      = ((searchFilterChain f (db.logs.reverse.take (pag.limit * 10))).drop
          (searchStartIndex
            (searchFilterChain f (db.logs.reverse.take (pag.limit * 10)))
            pag.cursor)).take pag.limit := by
  constructor
  · have h0 : (searchOp db f pag).hasMore
        = decide (searchStartIndex
            (searchFilterChain f (db.logs.reverse.take (pag.limit * 10)))
            pag.cursor + pag.limit
          < (searchFilterChain f (db.logs.reverse.take (pag.limit * 10))).length) := by
      cases pag; rfl
    rw [h0, decide_eq_true_eq]
    constructor
    · intro hlt
      have hne : ((searchFilterChain f
          (db.logs.reverse.take (pag.limit * 10))).drop
            (searchStartIndex
              (searchFilterChain f (db.logs.reverse.take (pag.limit * 10)))
              pag.cursor + pag.limit)).length > 0 := by
        rw [List.length_drop]; omega
      rcases List.exists_mem_of_length_pos hne with ⟨r, hr⟩
      exact ⟨r, hr⟩
    · rintro ⟨r, hr⟩
      have hne := List.length_pos_of_mem hr
      rw [List.length_drop] at hne
      omega
  · cases pag; rfl

/-- Counterexample to C3 as stated: for the 11-record log of
`wDB2` with the critical-severity filter and `limit = 1`, the first page
is empty and `hasMore` is `false`, although one record matching the
filter set exists in the log beyond the returned page. -/
theorem hasMore_counterexample :
    (searchOp wDB2 wFilters2 ⟨none, 1⟩).hasMore = false
    ∧ (searchOp wDB2 wFilters2 ⟨none, 1⟩).items.length = 0
    ∧ (wDB2.logs.filter (matchesFilters wFilters2)).length = 1 := by
  decide

/-! ### Backfill -/

theorem backfill_fold_logs :
    ∀ (l : List LogRecord) (db : DB),
      (l.foldl backfillInsert db).logs = db.logs
      ∧ (l.foldl backfillInsert db).nextId = db.nextId := by
  intro l
  induction l with
  | nil => intro db; exact ⟨rfl, rfl⟩
  | cons x xs ih => intro db; exact ih (backfillInsert db x)

theorem aggInsertIfAbsent_mono {e e' : AggEntry} {l : List AggEntry}
    (h : e ∈ l) : e ∈ aggInsertIfAbsent e' l := by
  unfold aggInsertIfAbsent
  split
  · exact h
  · exact List.mem_append_left _ h

theorem aggInsertIfAbsent_self (e : AggEntry) (l : List AggEntry) :
    e ∈ aggInsertIfAbsent e l := by
  unfold aggInsertIfAbsent
  split <;> rename_i h
  · exact List.mem_of_elem_eq_true h
  · exact List.mem_append_right _ (List.mem_cons_self _ _)

theorem backfillInsert_mono {e : AggEntry} {db : DB} (r : LogRecord) :
    (e ∈ db.aggSeverity → e ∈ (backfillInsert db r).aggSeverity)
    ∧ (e ∈ db.aggAction → e ∈ (backfillInsert db r).aggAction) :=
  ⟨fun h => aggInsertIfAbsent_mono h, fun h => aggInsertIfAbsent_mono h⟩

theorem backfill_fold_mono {e : AggEntry} :
    ∀ (l : List LogRecord) (db : DB),
      (e ∈ db.aggSeverity → e ∈ (l.foldl backfillInsert db).aggSeverity)
      ∧ (e ∈ db.aggAction → e ∈ (l.foldl backfillInsert db).aggAction) := by
  intro l
  induction l with
  | nil => intro db; exact ⟨id, id⟩
  | cons x xs ih =>
      intro db
      exact ⟨fun h => (ih _).1 ((backfillInsert_mono x).1 h),
        fun h => (ih _).2 ((backfillInsert_mono x).2 h)⟩

theorem backfill_fold_present :
    ∀ (l : List LogRecord) (db : DB) (r : LogRecord), r ∈ l →
      projSev r ∈ (l.foldl backfillInsert db).aggSeverity
      ∧ projAct r ∈ (l.foldl backfillInsert db).aggAction := by
  intro l
  induction l with
  | nil => intro db r h; cases h
  | cons x xs ih =>
      intro db r h
      rcases List.mem_cons.mp h with rfl | h'
      · exact ⟨(backfill_fold_mono xs _).1 (aggInsertIfAbsent_self _ _),
          (backfill_fold_mono xs _).2 (aggInsertIfAbsent_self _ _)⟩
      · exact ih _ r h'

theorem backfillLoop_mono {e : AggEntry} (bso : Option Nat) :
    ∀ (fuel : Nat) (db : DB) (cur : Option Nat),
      (e ∈ db.aggSeverity → e ∈ (backfillLoop db bso cur fuel).aggSeverity)
      ∧ (e ∈ db.aggAction → e ∈ (backfillLoop db bso cur fuel).aggAction) := by
  intro fuel
  induction fuel with
  | zero => intro db cur; exact ⟨id, id⟩
  | succ fuel ih =>
      intro db cur
      have hunfold : backfillLoop db bso cur (fuel + 1)
          = if (runBackfill db cur bso).2.isDone then (runBackfill db cur bso).1
            else backfillLoop (runBackfill db cur bso).1 bso
              (runBackfill db cur bso).2.cursor fuel := rfl
      have hstep : (e ∈ db.aggSeverity → e ∈ (runBackfill db cur bso).1.aggSeverity)
          ∧ (e ∈ db.aggAction → e ∈ (runBackfill db cur bso).1.aggAction) :=
        backfill_fold_mono _ db
      rw [hunfold]
      by_cases hdone : (runBackfill db cur bso).2.isDone = true
      · rw [if_pos hdone]
        exact hstep
      · rw [if_neg hdone]
        exact ⟨fun h => (ih _ _).1 (hstep.1 h), fun h => (ih _ _).2 (hstep.2 h)⟩

/-- In a strictly time-ascending list, the records with timestamp
strictly beyond the `j`-th element's are exactly the ones after it. -/
theorem filter_gt_timestamp (L : List LogRecord)
    (hP : L.Pairwise (fun a b => a.timestamp < b.timestamp)) :
    ∀ (j : Nat) (hj : j < L.length),
      L.filter (fun r => decide ((L.get ⟨j, hj⟩).timestamp < r.timestamp))
        = L.drop (j + 1) := by
  induction L with
  | nil => intro j hj; cases (Nat.not_lt_zero j) hj
  | cons x xs ih =>
      intro j hj
      rcases List.pairwise_cons.mp hP with ⟨hx, hxs⟩
      cases j with
      | zero =>
          show (x :: xs).filter (fun r => decide (x.timestamp < r.timestamp))
            = xs
          rw [List.filter_cons_of_neg (by simp)]
          apply List.filter_eq_self.mpr
          intro b hb
          exact decide_eq_true (hx b hb)
      | succ j =>
          have hj' : j < xs.length := Nat.lt_of_succ_lt_succ hj
          have hget : (x :: xs).get ⟨j + 1, hj⟩ = xs.get ⟨j, hj'⟩ := rfl
          rw [hget]
          have hxlt : x.timestamp < (xs.get ⟨j, hj'⟩).timestamp :=
            hx _ (xs.get_mem _ _)
          rw [List.filter_cons_of_neg (by simp [not_lt]; exact le_of_lt hxlt)]
          exact ih hxs j hj'

theorem find_at (L : List LogRecord) (hN : (L.map (·.id)).Nodup) :
    ∀ (j : Nat) (hj : j < L.length),
      L.find? (fun r => r.id == (L.get ⟨j, hj⟩).id) = some (L.get ⟨j, hj⟩) := by
  induction L with
  | nil => intro j hj; cases (Nat.not_lt_zero j) hj
  | cons x xs ih =>
      intro j hj
      cases j with
      | zero => exact List.find?_cons_of_pos _ (by simp)
      | succ j =>
          have hj' : j < xs.length := Nat.lt_of_succ_lt_succ hj
          have hget : (x :: xs).get ⟨j + 1, hj⟩ = xs.get ⟨j, hj'⟩ := rfl
          have hxid : x.id ≠ (xs.get ⟨j, hj'⟩).id := by
            intro hcontra
            have hmem : (xs.get ⟨j, hj'⟩).id ∈ xs.map (·.id) :=
              List.mem_map_of_mem _ (xs.get_mem _ _)
            exact (List.nodup_cons.mp hN).1
              (by show x.id ∈ xs.map (·.id); rw [hcontra]; exact hmem)
          rw [hget, List.find?_cons_of_neg _ (by simpa using hxid)]
          exact ih (List.nodup_cons.mp hN).2 j hj'

theorem runBackfill_derived (db : DB) (cur : Option Nat) (bso : Option Nat)
    (S : List LogRecord) (hscan : backfillScan db cur = S) :
    (runBackfill db cur bso).1
      = (if decide ((S.take (bso.getD 100 + 1)).length > bso.getD 100) = true
          then (S.take (bso.getD 100 + 1)).take (bso.getD 100)
          else S.take (bso.getD 100 + 1)).foldl backfillInsert db
    ∧ (runBackfill db cur bso).2.isDone
      = !(decide ((S.take (bso.getD 100 + 1)).length > bso.getD 100))
    ∧ (runBackfill db cur bso).2.cursor
      = (match decide ((S.take (bso.getD 100 + 1)).length > bso.getD 100),
          (if decide ((S.take (bso.getD 100 + 1)).length > bso.getD 100) = true
            then (S.take (bso.getD 100 + 1)).take (bso.getD 100)
            else S.take (bso.getD 100 + 1)).getLast? with
         | true, some lastDoc => some lastDoc.id
         | _, _ => none) := by
  subst hscan
  exact ⟨rfl, rfl, rfl⟩

theorem backfillScan_cursor (db : DB) (cid : Nat) :
    backfillScan db (some cid)
      = (match db.logs.find? (fun r => r.id == cid) with
         | some cdoc => db.logs.filter (fun r => decide (cdoc.timestamp < r.timestamp))
         | none => byCreation db) := rfl

theorem insertByCreation_append (r : LogRecord) :
    ∀ p : List LogRecord, (∀ x ∈ p, x.creationTime ≤ r.creationTime) →
      insertByCreation r p = p ++ [r] := by
  intro p
  induction p with
  | nil => intro _; rfl
  | cons x xs ih =>
      intro h
      rw [show insertByCreation r (x :: xs)
          = if x.creationTime ≤ r.creationTime then x :: insertByCreation r xs
            else r :: x :: xs from rfl,
        if_pos (h x (List.mem_cons_self _ _)),
        ih (fun y hy => h y (List.mem_cons_of_mem _ hy))]
      rfl

theorem byCreation_fold :
    ∀ (l p : List LogRecord),
      (p ++ l).Pairwise (fun a b => a.creationTime < b.creationTime) →
      l.foldl (fun acc r => insertByCreation r acc) p = p ++ l := by
  intro l
  induction l with
  | nil => intro p _; simp
  | cons r l' ih =>
      intro p hp
      have hins : insertByCreation r p = p ++ [r] := by
        apply insertByCreation_append
        intro x hx
        have := (List.pairwise_append.mp hp).2.2 x hx r (List.mem_cons_self _ _)
        exact le_of_lt this
      rw [List.foldl_cons, hins, ih (p ++ [r]) (by simpa using hp)]
      simp

/-- When the creation times strictly increase along the `by_timestamp`
list — commit order agrees with timestamp order — the default
creation-order scan is that same list. -/
theorem byCreation_of_sorted (db : DB)
    (h : db.logs.Pairwise (fun a b => a.creationTime < b.creationTime)) :
    byCreation db = db.logs := by
  have := byCreation_fold db.logs [] (by simpa using h)
  simpa [byCreation] using this

theorem backfillLoop_covers_aux (L : List LogRecord) (bso : Option Nat)
    (hbs : 1 ≤ bso.getD 100)
    (hP : L.Pairwise (fun a b => a.timestamp < b.timestamp))
    (hN : (L.map (·.id)).Nodup) :
    ∀ (fuel : Nat) (db : DB) (cur : Option Nat) (i : Nat),
      db.logs = L → backfillScan db cur = L.drop i → L.length - i < fuel →
      ∀ r ∈ L.drop i,
        projSev r ∈ (backfillLoop db bso cur fuel).aggSeverity
        ∧ projAct r ∈ (backfillLoop db bso cur fuel).aggAction := by
  intro fuel
  induction fuel with
  | zero => intro db cur i _ _ hfuel; omega
  | succ fuel ih =>
      intro db cur i hdb hscan hfuel r hr
      obtain ⟨ha1, ha2, ha3⟩ := runBackfill_derived db cur bso (L.drop i) hscan
      have hloop : backfillLoop db bso cur (fuel + 1)
          = if (runBackfill db cur bso).2.isDone then (runBackfill db cur bso).1
            else backfillLoop (runBackfill db cur bso).1 bso
              (runBackfill db cur bso).2.cursor fuel := rfl
      have hdroplen : (L.drop i).length = L.length - i := List.length_drop _ _
      by_cases hcase : bso.getD 100 + 1 ≤ L.length - i
      · -- more than a batch remains: hasMore, recurse
        have htakelen : ((L.drop i).take (bso.getD 100 + 1)).length
            = bso.getD 100 + 1 := by
          rw [List.length_take, hdroplen]; omega
        have hHM : decide (((L.drop i).take (bso.getD 100 + 1)).length
            > bso.getD 100) = true := by
          rw [htakelen]; exact decide_eq_true (by omega)
        rw [hHM] at ha1 ha2 ha3
        rw [if_pos rfl] at ha1 ha3
        have htp : ((L.drop i).take (bso.getD 100 + 1)).take (bso.getD 100)
            = (L.drop i).take (bso.getD 100) := by
          rw [List.take_take]
          congr 1
          omega
        rw [htp] at ha1 ha3
        have htplen : ((L.drop i).take (bso.getD 100)).length = bso.getD 100 := by
          rw [List.length_take, hdroplen]; omega
        have hidx : i + (bso.getD 100 - 1) < L.length := by omega
        have hlast : ((L.drop i).take (bso.getD 100)).getLast?
            = some (L.get ⟨i + (bso.getD 100 - 1), hidx⟩) := by
          rw [List.getLast?_eq_get?, htplen,
            List.get?_take (by omega : bso.getD 100 - 1 < bso.getD 100),
            List.get?_drop, List.get?_eq_get hidx]
        rw [hlast] at ha3
        have hdone : (runBackfill db cur bso).2.isDone = false := by
          rw [ha2]; rfl
        have hcursor : (runBackfill db cur bso).2.cursor
            = some (L.get ⟨i + (bso.getD 100 - 1), hidx⟩).id := by
          rw [ha3]
        have hdb2 : (runBackfill db cur bso).1.logs = L := by
          rw [ha1, (backfill_fold_logs _ db).1, hdb]
        have hscan2 : backfillScan (runBackfill db cur bso).1
            (some (L.get ⟨i + (bso.getD 100 - 1), hidx⟩).id)
            = L.drop (i + bso.getD 100) := by
          rw [backfillScan_cursor, hdb2, find_at L hN _ hidx]
          show L.filter (fun r =>
              decide ((L.get ⟨i + (bso.getD 100 - 1), hidx⟩).timestamp
                < r.timestamp)) = L.drop (i + bso.getD 100)
          rw [filter_gt_timestamp L hP _ hidx]
          congr 1
          omega
        rw [hloop, if_neg (by rw [hdone]; simp), hcursor]
        have hsplit : L.drop i
            = (L.drop i).take (bso.getD 100) ++ L.drop (i + bso.getD 100) := by
          rw [show L.drop (i + bso.getD 100) = (L.drop i).drop (bso.getD 100) by
            rw [List.drop_drop]]
          exact (List.take_append_drop _ _).symm
        rw [hsplit] at hr
        rcases List.mem_append.mp hr with hr1 | hr2
        · have hpres := backfill_fold_present _ db r hr1
          rw [← ha1] at hpres
          exact ⟨(backfillLoop_mono bso fuel _ _).1 hpres.1,
            (backfillLoop_mono bso fuel _ _).2 hpres.2⟩
        · exact ih (runBackfill db cur bso).1
            (some (L.get ⟨i + (bso.getD 100 - 1), hidx⟩).id)
            (i + bso.getD 100) hdb2 hscan2 (by omega) r hr2
      · -- the final batch: everything remaining is processed, isDone
        have htakelen : ((L.drop i).take (bso.getD 100 + 1)).length
            = L.length - i := by
          rw [List.length_take, hdroplen]; omega
        have hHM : decide (((L.drop i).take (bso.getD 100 + 1)).length
            > bso.getD 100) = false := by
          rw [htakelen]; exact decide_eq_false (by omega)
        rw [hHM] at ha1 ha2
        rw [if_neg (by simp)] at ha1
        have htp : (L.drop i).take (bso.getD 100 + 1) = L.drop i := by
          apply List.take_of_length_le
          rw [hdroplen]; omega
        rw [htp] at ha1
        have hdone : (runBackfill db cur bso).2.isDone = true := by
          rw [ha2]; rfl
        rw [hloop, if_pos hdone, ha1]
        exact backfill_fold_present _ db r hr

/-- C7 (amended) — Backfill coverage for logs whose commit order agrees
with strictly increasing timestamps.  When the records' timestamps are
pairwise distinct and their creation (commit) order coincides with their
timestamp order, running `runBackfill` from no cursor and feeding back
each returned cursor until `isDone` inserts every record's entry into
both Aggregate Indexes.  (The counterexample shows coverage fails when
timestamps tie, because the first call scans in creation order and every
resume restarts strictly after the cursor record's timestamp.) -/
theorem backfill_coverage (db : DB) (bso : Option Nat)
    (hbs : 1 ≤ bso.getD 100)
    (hP : db.logs.Pairwise (fun a b => a.timestamp < b.timestamp))
    (hC : db.logs.Pairwise (fun a b => a.creationTime < b.creationTime))
    (hN : (db.logs.map (·.id)).Nodup) :
    ∀ r ∈ db.logs,
      projSev r ∈ (backfillLoop db bso none (db.logs.length + 1)).aggSeverity
      ∧ projAct r ∈ (backfillLoop db bso none (db.logs.length + 1)).aggAction := by
  intro r hr
  have hscan0 : backfillScan db none = db.logs.drop 0 := by
    rw [List.drop_zero]
    exact byCreation_of_sorted db hC
  exact backfillLoop_covers_aux db.logs bso hbs hP hN (db.logs.length + 1)
    db none 0 rfl hscan0 (by omega) r (by rwa [List.drop_zero])

def wRec7a : LogRecord :=
  recordOfEvent 0 100 { action := "a.one", severity := .info }

def wRec7b : LogRecord :=
  recordOfEvent 1 200 { action := "a.two", severity := .warning }

/-- A Primary Log that predates the aggregates: two records committed in
timestamp order with distinct timestamps, and empty Aggregate Indexes. -/
def wDB7 : DB := ⟨[wRec7a, wRec7b], [], [], 2⟩

/-- Witness for C7 (amended): iterated backfill with batch size 1 over a
two-record log with distinct timestamps committed in timestamp order
populates both aggregates with both records. -/
theorem backfill_coverage_witness :
    1 ≤ (some 1 : Option Nat).getD 100
    ∧ wDB7.logs.Pairwise (fun a b => a.timestamp < b.timestamp)
    ∧ wDB7.logs.Pairwise (fun a b => a.creationTime < b.creationTime)
    ∧ (wDB7.logs.map (·.id)).Nodup
    ∧ wRec7a ∈ wDB7.logs
    ∧ (projSev wRec7a
        ∈ (backfillLoop wDB7 (some 1) none (wDB7.logs.length + 1)).aggSeverity
      ∧ projAct wRec7a
        ∈ (backfillLoop wDB7 (some 1) none (wDB7.logs.length + 1)).aggAction) :=
  ⟨by decide, by decide, by decide, by decide, List.mem_cons_self _ _,
    backfill_coverage wDB7 (some 1) (by decide) (by decide) (by decide)
      (by decide) wRec7a (List.mem_cons_self _ _)⟩

/-- A record committed after `wRec7a` (later `_creationTime`) but with
the same stored `timestamp` — the tie one `logBulk` call produces. -/
def wRec7c : LogRecord :=
  { recordOfEvent 1 100 { action := "a.two", severity := .warning } with
      creationTime := 150 }

/-- The same Primary Log but with tying timestamps (as `logBulk`
produces). -/
def wDB7bad : DB := ⟨[wRec7a, wRec7c], [], [], 2⟩

/-- Counterexample to C7 as stated: with two equal-timestamp records and
batch size 1, the first call scans in creation order and processes only
the first record, returning its id as cursor; the resumed scan
`timestamp > cursor.timestamp` skips the tied second record, the next
call reports `isDone`, and the second record is never inserted into the
Aggregate Indexes. -/
theorem backfill_counterexample :
    (runBackfill wDB7bad none (some 1)).2.isDone = false
    ∧ (runBackfill wDB7bad none (some 1)).2.cursor = some 0
    ∧ (runBackfill (runBackfill wDB7bad none (some 1)).1 (some 0) (some 1)).2.isDone
        = true
    ∧ (wDB7bad.logs.map (·.id)) = [0, 1]
    ∧ ((backfillLoop wDB7bad (some 1) none 5).aggSeverity.contains
        (projSev wRec7c)) = false
    ∧ ((backfillLoop wDB7bad (some 1) none 5).aggAction.contains
        (projAct wRec7c)) = false := by
  decide

end AuditLog
